import Mathlib

/-!
Verification of the dynapack update/transaction engine.

The development shallowly embeds the update-expression compiler
(`createUpdateActionForKey`, `mapAccessPatterns`, `updateInternal`),
the name/value mapping sessions (`createNameMapper`, `createValueMapper`)
and the transaction coordinator, and proves the specified properties.

Parts of the repository that are referenced but whose source is not part
of the embedded tree (the key-path matcher `findMatchingPath`, the
composite-key assembler `assembleIndexedValue`, the safe-name predicate
`isSafeAttributeName`, and the transaction coordinator `transactionWrite`)
are modelled from the specification; each such definition carries a doc
comment saying so.
-/

namespace Dynapack

/-! ### Decimal rendering of counters

The mappers build placeholder tokens by interpolating a numeric counter
(`` `#attr${currentIndex++}` ``, `` `:value${currentIndex++}` ``).  We model the
decimal rendering with a fuel-based structural recursion so that concrete
instances reduce inside the kernel, and prove it injective. -/

/-- Little-endian decimal digits of `n`, with explicit fuel (the fuel is
always sufficient when it is at least `n`). -/
def natDigitsCore : Nat → Nat → List Nat
  | 0, _ => []
  | fuel + 1, n => if n < 10 then [n] else n % 10 :: natDigitsCore fuel (n / 10)

/-- Little-endian decimal digits of `n`. -/
def natDigitsLE (n : Nat) : List Nat := natDigitsCore (n + 1) n

/-- Decode little-endian decimal digits back to a number. -/
def decValue : List Nat → Nat
  | [] => 0
  | d :: ds => d + 10 * decValue ds

/-- Decimal digit character (used only for digits `< 10`). -/
def decDigitChar (d : Nat) : Char :=
  Char.ofNat (48 + d)

/-- Decimal string of a natural number, as JS template interpolation renders it. -/
def natStr (n : Nat) : String :=
  ⟨(natDigitsLE n).reverse.map decDigitChar⟩

/-! ### Documents and attribute values

A document is a JSON-like tree of named fields.  Field lists are a
dedicated mutual inductive (instead of `List (String × Value)`) so that
all recursions over documents are structural and kernel-reducible.
An absent JS value (`undefined`) is represented by `Option.none` at the
use sites, never inside `Value`. -/

mutual

inductive Value where
  | str (s : String)
  | num (n : Int)
  | boolean (b : Bool)
  | null
  | obj (fields : Fields)
deriving DecidableEq

inductive Fields where
  | nil
  | cons (key : String) (value : Value) (rest : Fields)
deriving DecidableEq

end

/-- Field lookup inside an object literal (first binding wins, as in a JS
object, whose keys are unique anyway). -/
def Fields.lookup (key : String) : Fields → Option Value
  | .nil => none
  | .cons k v rest => if k = key then some v else Fields.lookup key rest

/-- The marshalled store-native attribute payload.  Marshalling itself
(`Converter.input` of the store SDK) is an external collaborator declared
out of scope by the spec; we model it as an opaque injective wrapper. -/
structure AttributeValue where
  val : Value
deriving DecidableEq

/-- Model of the external `Converter.input` marshaller. -/
def converterInput (v : Value) : AttributeValue := ⟨v⟩

/-- The typed validation errors of the engine (spec §7 taxonomy). -/
inductive Err where
  | invalidUpdate
  | invalidUpdates
  | invalidUpdateValue (path : String)
  | indexNotFound (index : String)
  | transactionValidation
  | idempotentParameterMismatch
deriving DecidableEq

/-! ### Key paths and string helpers -/

/-- A key path: ordered field-name segments locating a nested field. -/
abbrev KeyPath := List String

/-- Splitting a dotted path string at `'.'` (JS `updatePath.split('.')`),
written over the character list so it reduces in the kernel. -/
def splitPathChars : List Char → List Char → List String
  | [], acc => [⟨acc.reverse⟩]
  | c :: cs, acc =>
    if c = '.' then ⟨acc.reverse⟩ :: splitPathChars cs []
    else splitPathChars cs (c :: acc)

/-- `"a.b.c".split('.')`. -/
def splitPath (s : String) : KeyPath := splitPathChars s.data []

/-- JS `Array.prototype.join(sep)`. -/
def joinSep (sep : String) : List String → String
  | [] => ""
  | [x] => x
  | x :: y :: rest => x ++ sep ++ joinSep sep (y :: rest)

/-- Dotted rendering of a key path (JS `kp.join('.')`). -/
def joinPath (kp : KeyPath) : String := joinSep "." kp

/-- Whether `l₁` is a (not necessarily proper) prefix of `l₂`. -/
def isPrefixList : List String → List String → Bool
  | [], _ => true
  | _ :: _, [] => false
  | a :: as, b :: bs => a = b && isPrefixList as bs

/-- Left-trim of the single leading space the update expression may
carry (JS `String.prototype.trim` on the strings the compiler builds,
which only ever have leading blanks). -/
def trimLeft (s : String) : String := ⟨s.data.dropWhile (· = ' ')⟩

/-! ### Updates and key-path resolution -/

/-- The updates map: dotted update paths to new values, in declaration
order.  A `none` value is JS `undefined` supplied for the key. -/
abbrev Updates := List (String × Option Value)

/-- JS property read `updates[path]` (`undefined` both for a missing key
and for a key explicitly bound to `undefined`). -/
def Updates.valueOf (updates : Updates) (path : String) : Option Value :=
  match updates.find? (fun e => e.1 = path) with
  | some e => e.2
  | none => none

/-- `extractUpdateKeyPaths` from the compiler source: split every update
path on dots, in declaration order. -/
def extractUpdateKeyPaths (updates : Updates) : List KeyPath :=
  updates.map (fun e => splitPath e.1)

/-- Non-empty-path descent for `lodashGet`. -/
def lodashGetAux (v : Option Value) : List String → Option Value
  | [] => v
  | k :: rest =>
    match v with
    | some (.obj fields) => lodashGetAux (fields.lookup k) rest
    | _ => lodashGetAux none rest

/-- lodash `get(value, path)` restricted to the shapes the compiler
feeds it: descends field by field, `undefined` on any miss, and (as
lodash does) `undefined` when the path is empty. -/
def lodashGet (v : Option Value) : List String → Option Value
  | [] => none
  | path => lodashGetAux v path

/-- Modelled from the spec: `findMatchingPath` lives in `base/util.ts`,
which is not part of the embedded tree.  Spec §4.2.3a: "a key path
matches an update path if it is an exact match, an ancestor (the whole
sub-object was replaced), or the update path is a suffix addressing a
sub-field under the key path" — i.e. one of the two paths is a prefix of
the other.  The first matching update path (in update order) is
returned. -/
def findMatchingPath (updateKeyPaths : List KeyPath) (keyPath : KeyPath) : Option KeyPath :=
  updateKeyPaths.find? (fun up => isPrefixList up keyPath || isPrefixList keyPath up)

/-- Resolution of one matched key path (`createUpdateActionForKey`, value
loop): read the update value of the matching update path, and descend by
the residual suffix when the lengths differ. -/
def resolveUpdateValue (updates : Updates) (kp mp : KeyPath) : Option Value :=
  let value := updates.valueOf (joinPath mp)
  if kp.length ≠ mp.length then lodashGet value (kp.drop mp.length) else value

/-- The ordered resolved values for the declared key paths of one role
(`updateValues` in `createUpdateActionForKey`): `none` for an unmatched
path, otherwise the resolved value of its matching update path. -/
def resolvedKeyValues (updates : Updates) (keyPaths : List KeyPath) : List (Option Value) :=
  List.zipWith
    (fun (kp : KeyPath) (m : Option KeyPath) =>
      m.bind (fun mp => resolveUpdateValue updates kp mp))
    keyPaths (keyPaths.map (findMatchingPath (extractUpdateKeyPaths updates)))

/-! ### Composite key assembly (modelled from the spec) -/

/-- Key role: partition or sort component of an index. -/
inductive KeyType where
  | partition
  | sort
deriving DecidableEq

/-- The string form of a field value used inside a composite key.
Composite key components are scalar in practice; object values get a
fixed JS-like rendering. -/
def valueToString : Value → String
  | .str s => s
  | .num n => toString n
  | .boolean true => "true"
  | .boolean false => "false"
  | .null => "null"
  | .obj _ => "[object Object]"

/-- Escape embedded separator occurrences so composite values round-trip
(spec §4.1); the escape character itself is escaped first. -/
def escapeSeparator (s : String) : String :=
  ⟨s.data.foldr (fun c acc =>
    if c = '|' ∨ c = '\\' then '\\' :: c :: acc else c :: acc) []⟩

/-- Modelled from the spec: `assembleIndexedValue` lives in
`base/util.ts`, which is not part of the embedded tree.  Spec §4.1:
every value present → the literal `collection|v1|…|vn` (separator `|` as
in the spec's §8 scenario, embedded separators escaped); sort with every
value absent → `undefined` (delete the attribute); partition with a
value absent while another is present → `InvalidUpdate`; sort with a
non-empty proper subset of values present → `InvalidUpdate`.  The one
case the spec leaves open, partition with every value absent, returns
the bare collection-name literal (the concatenation with no values). -/
def assembleIndexedValue (keyType : KeyType) (collectionName : String)
    (values : List (Option Value)) : Except Err (Option String) :=
  if values.all (fun v => v.isSome) then
    .ok (some (collectionName ++
      String.join (values.map (fun v => "|" ++ escapeSeparator (valueToString (v.getD .null))))))
  else if values.all (fun v => v.isNone) then
    match keyType with
    | .sort => .ok none
    | .partition => .ok (some collectionName)
  else
    .error .invalidUpdate

/-! ### Collection layout and access patterns -/

/-- Layout of one secondary index (`SecondaryIndexLayout`). -/
structure SecondaryIndexLayout where
  indexName : String
  partitionKey : String
  sortKey : Option String
deriving DecidableEq

/-- Collection layout: table name plus the secondary index layouts
(`layout.findKeys`; an absent `findKeys` is the empty list). -/
structure CollectionLayout where
  tableName : String
  findKeys : List SecondaryIndexLayout
deriving DecidableEq

/-- An access pattern: named index plus ordered key paths for each role. -/
structure AccessPattern where
  indexName : String
  partitionKeys : List KeyPath
  sortKeys : Option (List KeyPath)
deriving DecidableEq

/-- A collection declaration, as the compiler consumes it. -/
structure Collection where
  name : String
  layout : CollectionLayout
  accessPatterns : Option (List AccessPattern)

/-! ### Name and value mapping sessions (`base/mappers.ts`) -/

/-- Modelled from the spec: `isSafeAttributeName` lives in
`expression_util.ts`, which is not part of the embedded tree.  Spec §3:
a name is safe when it "does not collide with store-reserved tokens or
syntax": plain alphanumeric identifiers that are not reserved words of
the store's expression language (compared case-insensitively). -/
def storeReservedWords : List String :=
  ["VALUE", "VALUES", "COUNT", "NAME", "STATUS", "TYPE", "KEY", "KEYS",
   "ADD", "DELETE", "REMOVE", "UPDATE"]

/-- Modelled from the spec: see `storeReservedWords`. -/
def isSafeAttributeName (name : String) : Bool :=
  (match name.data with
   | [] => false
   | c :: rest => c.isAlpha && rest.all (fun ch => ch.isAlphanum)) &&
  !storeReservedWords.contains ⟨name.data.map Char.toUpper⟩

/-- The closure state of `createNameMapper`: the running placeholder
counter and the `name → mapped-name` table in insertion order. -/
structure NameMapperState where
  currentIndex : Nat
  attributeNameMap : List (String × String)
deriving DecidableEq

/-- `createNameMapper()`: index `0`, table pre-seeded with
`value → #value`. -/
def createNameMapper : NameMapperState :=
  ⟨0, [("value", "#value")]⟩

/-- `nameMapper.map(name)`: safe names pass through untouched; unsafe
names get the table entry, created as `#attr<index>` on first sight. -/
def NameMapperState.map (st : NameMapperState) (name : String) : String × NameMapperState :=
  if isSafeAttributeName name then (name, st)
  else
    match st.attributeNameMap.find? (fun e => e.1 = name) with
    | some e => (e.2, st)
    | none =>
      let nameMapping := "#attr" ++ natStr st.currentIndex
      (nameMapping, ⟨st.currentIndex + 1, st.attributeNameMap ++ [(name, nameMapping)]⟩)

/-- `invertMap`: swap every `(name, mapped)` entry. -/
def invertMap (m : List (String × String)) : List (String × String) :=
  m.map (fun e => (e.2, e.1))

/-- `nameMapper.get()`: the `ExpressionAttributeNames` table. -/
def NameMapperState.get (st : NameMapperState) : List (String × String) :=
  invertMap st.attributeNameMap

/-- The closure state of `createValueMapper`: the running counter and
the `placeholder → marshalled value` table in insertion order. -/
structure ValueMapperState where
  currentIndex : Nat
  valueMap : List (String × AttributeValue)
deriving DecidableEq

/-- `createValueMapper()`: index `0`, empty table. -/
def createValueMapper : ValueMapperState := ⟨0, []⟩

/-- `valueMapper.map(value)`: always a fresh `:value<index>` placeholder
bound to the marshalled value. -/
def ValueMapperState.map (st : ValueMapperState) (value : Value) : String × ValueMapperState :=
  let valueKey := ":value" ++ natStr st.currentIndex
  (valueKey, ⟨st.currentIndex + 1, st.valueMap ++ [(valueKey, converterInput value)]⟩)

/-- `valueMapper.get()`: the `ExpressionAttributeValues` table. -/
def ValueMapperState.get (st : ValueMapperState) : List (String × AttributeValue) :=
  st.valueMap

/-- The per-compile pair of mapping sessions. -/
structure MapperSessions where
  names : NameMapperState
  values : ValueMapperState
deriving DecidableEq

/-! ### The update-expression compiler (`updateInternal` and friends) -/

/-- The result of `createUpdateActionForKey`: the index attribute to
write and the assembled composite value (`none` signalling removal). -/
structure UpdateKeyAction where
  attributeName : String
  value : Option String
deriving DecidableEq

/-- The index attribute addressed by one role
(`keyType === 'sort' ? indexLayout.sortKey as string :
indexLayout.partitionKey`; the JS cast of a missing sort key
interpolates as the literal string `undefined`). -/
def roleAttributeName (keyType : KeyType) (layout : SecondaryIndexLayout) : String :=
  match keyType with
  | .sort => layout.sortKey.getD "undefined"
  | .partition => layout.partitionKey

/-- `createUpdateActionForKey` from the compiler source: match the
declared key paths of one role against the update paths, skip if none
match, reject a partially-matched partition key, otherwise resolve each
matched value (descending by the residual suffix when the update path is
an ancestor) and assemble the composite value. -/
def createUpdateActionForKey (collectionName : String) (keyType : KeyType)
    (keyPaths : List KeyPath) (indexLayout : SecondaryIndexLayout)
    (updates : Updates) : Except Err (Option UpdateKeyAction) :=
  let updateKeyPaths := extractUpdateKeyPaths updates
  let matchingUpdatePaths := keyPaths.map (findMatchingPath updateKeyPaths)
  let attributeName := roleAttributeName keyType indexLayout
  if matchingUpdatePaths.all (fun m => m.isNone) then
    .ok none
  else if keyType = KeyType.partition ∧ matchingUpdatePaths.any (fun m => m.isNone) then
    .error .invalidUpdates
  else
    match assembleIndexedValue keyType collectionName (resolvedKeyValues updates keyPaths) with
    | .error e => .error e
    | .ok v => .ok (some { attributeName := attributeName, value := v })

/-- `findCollectionIndex`: the layout of the named index, or
`IndexNotFound`. -/
def findCollectionIndex (collection : Collection) (indexName : String) :
    Except Err SecondaryIndexLayout :=
  match collection.layout.findKeys.find? (fun fk => fk.indexName = indexName) with
  | some layout => .ok layout
  | none => .error (.indexNotFound indexName)

/-- The value handed to the value mapper for an index attribute
(`Converter.input` applied to `string | undefined`; under the modelled
assembler a partition value is never `undefined`). -/
def optionalKeyValue : Option String → Value
  | some s => .str s
  | none => .null

/-- The partition-key half of one `mapAccessPatterns` loop iteration. -/
def applyPartitionPattern (collection : Collection) (updates : Updates)
    (p : AccessPattern) (acc : List String × List String × MapperSessions) :
    Except Err (List String × List String × MapperSessions) :=
  if p.partitionKeys.length > 0 then
    match findCollectionIndex collection p.indexName with
    | .error e => .error e
    | .ok layout =>
      match createUpdateActionForKey collection.name .partition p.partitionKeys layout updates with
      | .error e => .error e
      | .ok none => .ok acc
      | .ok (some upd) =>
        let nameMapping := (acc.2.2.names.map upd.attributeName).1
        let valueMapping := (acc.2.2.values.map (optionalKeyValue upd.value)).1
        .ok (acc.1 ++ [nameMapping ++ " = " ++ valueMapping], acc.2.1,
          ⟨(acc.2.2.names.map upd.attributeName).2,
           (acc.2.2.values.map (optionalKeyValue upd.value)).2⟩)
  else .ok acc

/-- The sort-key half of one `mapAccessPatterns` loop iteration: a
defined assembled value becomes a `set` action, an undefined one a
`remove` action on the index's sort attribute. -/
def applySortPattern (collection : Collection) (updates : Updates)
    (p : AccessPattern) (acc : List String × List String × MapperSessions) :
    Except Err (List String × List String × MapperSessions) :=
  match p.sortKeys with
  | none => .ok acc
  | some sortKeys =>
    if sortKeys.length > 0 then
      match findCollectionIndex collection p.indexName with
      | .error e => .error e
      | .ok layout =>
        match createUpdateActionForKey collection.name .sort sortKeys layout updates with
        | .error e => .error e
        | .ok none => .ok acc
        | .ok (some upd) =>
          match upd.value with
          | some v =>
            let nameMapping := (acc.2.2.names.map upd.attributeName).1
            let valueMapping := (acc.2.2.values.map (.str v)).1
            .ok (acc.1 ++ [nameMapping ++ " = " ++ valueMapping], acc.2.1,
              ⟨(acc.2.2.names.map upd.attributeName).2,
               (acc.2.2.values.map (.str v)).2⟩)
          | none =>
            let nameMapping := (acc.2.2.names.map upd.attributeName).1
            .ok (acc.1, acc.2.1 ++ [nameMapping],
              ⟨(acc.2.2.names.map upd.attributeName).2, acc.2.2.values⟩)
    else .ok acc

/-- The `mapAccessPatterns` loop over the access-pattern list. -/
def mapAccessPatternsGo (collection : Collection) (updates : Updates) :
    List AccessPattern → List String × List String × MapperSessions →
    Except Err (List String × List String × MapperSessions)
  | [], acc => .ok acc
  | p :: rest, acc =>
    match applyPartitionPattern collection updates p acc with
    | .error e => .error e
    | .ok acc₁ =>
      match applySortPattern collection updates p acc₁ with
      | .error e => .error e
      | .ok acc₂ => mapAccessPatternsGo collection updates rest acc₂

/-- `mapAccessPatterns`: the index `set`/`remove` actions for every
declared access pattern, in declaration order, threading the mapping
sessions. -/
def mapAccessPatterns (collection : Collection) (st : MapperSessions)
    (updates : Updates) : Except Err (List String × List String × MapperSessions) :=
  match collection.accessPatterns with
  | none => .ok ([], [], st)
  | some aps => mapAccessPatternsGo collection updates aps ([], [], st)

/-- Mapping every segment of an update key path through the stateful
name mapper, in order. -/
def mapNameParts (parts : List String) (ns : NameMapperState) :
    List String × NameMapperState :=
  match parts with
  | [] => ([], ns)
  | p :: rest =>
    let (m, ns₁) := ns.map p
    let (ms, ns₂) := mapNameParts rest ns₁
    (m :: ms, ns₂)

/-- The first loop of `updateInternal`: one `set` action per update
path, in update order, each addressing the field under the `#value`
wrapper and rejecting an `undefined` value. -/
def primarySetLoop : Updates → MapperSessions → Except Err (List String × MapperSessions)
  | [], st => .ok ([], st)
  | (updatePath, v?) :: rest, st =>
    match v? with
    | none => .error (.invalidUpdateValue updatePath)
    | some v =>
      let valueName := (st.values.map v).1
      let parts := (mapNameParts (splitPath updatePath) st.names).1
      let action := joinSep "." ("#value" :: parts) ++ " = " ++ valueName
      match primarySetLoop rest ⟨(mapNameParts (splitPath updatePath) st.names).2,
          (st.values.map v).2⟩ with
      | .error e => .error e
      | .ok (actions, st') => .ok (action :: actions, st')

/-- The combined `SET`/`REMOVE` expression string, clauses comma-joined
and empty clauses omitted (`updateExpression.trim()`). -/
def renderUpdateExpression (setActions deleteActions : List String) : String :=
  trimLeft
    ((if setActions.length > 0 then " SET " ++ joinSep ", " setActions else "") ++
     (if deleteActions.length > 0 then " REMOVE " ++ joinSep ", " deleteActions else ""))

/-- The compiled mutation: action lists, placeholder tables and the
rendered update expression of the store request. -/
structure CompiledUpdate where
  setActions : List String
  deleteActions : List String
  expressionAttributeNames : List (String × String)
  expressionAttributeValues : List (String × AttributeValue)
  updateExpression : String
deriving DecidableEq

/-- The pure compilation prefix of `updateInternal`: reject an empty
updates map, build the primary-field `set` actions, add the index
actions from `mapAccessPatterns`, and extract the tables and the
expression string.  Errors are raised before the single store call, so
an `Except.error` result means no mutation was issued. -/
def compileUpdate (collection : Collection) (updates : Updates) :
    Except Err CompiledUpdate :=
  if updates.length = 0 then .error .invalidUpdates
  else
    match primarySetLoop updates ⟨createNameMapper, createValueMapper⟩ with
    | .error e => .error e
    | .ok (primaryActions, st) =>
      match mapAccessPatterns collection st updates with
      | .error e => .error e
      | .ok (idxSet, idxDel, st') =>
        let setActions := primaryActions ++ idxSet
        let deleteActions := idxDel
        .ok { setActions := setActions
              deleteActions := deleteActions
              expressionAttributeNames := st'.names.get
              expressionAttributeValues := st'.values.get
              updateExpression := renderUpdateExpression setActions deleteActions }

/-! ### Transaction coordinator (modelled from the spec)

`transact_write.ts` is not part of the embedded tree — only its test
suite is — so the coordinator and the backing store's transactional
contract are modelled from spec §4.3: pre-submission validation of the
batch-size bound and of duplicate `(collection, id)` targets, and
store-side idempotency-token bookkeeping that fingerprints the token
against the request payload. -/

/-- Modelled from the spec: one write request of a transactional batch
(spec §3, `TransactionWriteRequest`). -/
inductive TransactionWriteRequest where
  | insertReq (collectionName : String) (id : String) (doc : Value) (condition : Option Value)
  | replaceReq (collectionName : String) (id : String) (doc : Value) (condition : Option Value)
  | deleteReq (collectionName : String) (id : String)
deriving DecidableEq

/-- The `(collection, id)` pair a request targets. -/
def TransactionWriteRequest.target : TransactionWriteRequest → String × String
  | .insertReq c i _ _ => (c, i)
  | .replaceReq c i _ _ => (c, i)
  | .deleteReq c i => (c, i)

/-- Whether the target list contains a pair of equal targets. -/
def hasDuplicateTargets : List (String × String) → Bool
  | [] => false
  | t :: ts => ts.contains t || hasDuplicateTargets ts

/-- Modelled from the spec: the backing store's transactional batch-size
bound (the DynamoDB-like store accepts at most 25 items per
transactional write). -/
def transactionSizeLimit : Nat := 25

/-- The request payload the coordinator would submit to the store in one
atomic call: the ordered operations plus the optional idempotency
token. -/
structure TransactionPayload where
  requests : List TransactionWriteRequest
  clientRequestToken : Option String
deriving DecidableEq

/-- Modelled from the spec: `transactionWrite`'s pre-submission
validation (spec §4.3).  An `Except.error` result is raised before any
network call — no store payload exists in that case. -/
def transactionWrite (requests : List TransactionWriteRequest)
    (token : Option String) : Except Err TransactionPayload :=
  if requests.length > transactionSizeLimit then .error .transactionValidation
  else if hasDuplicateTargets (requests.map (fun r => r.target)) then
    .error .transactionValidation
  else .ok ⟨requests, token⟩

/-- The observable state of the backing store: the journal of committed
batches (its side effects) and the idempotency-token table mapping each
seen token to the payload fingerprint it was first used with. -/
structure StoreState where
  committed : List (List TransactionWriteRequest)
  tokenTable : List (String × List TransactionWriteRequest)
deriving DecidableEq

/-- Fingerprint recorded for a token, if the token has been seen. -/
def lookupToken (t : String)
    (tbl : List (String × List TransactionWriteRequest)) :
    Option (List TransactionWriteRequest) :=
  (tbl.find? (fun e => e.1 = t)).map (fun e => e.2)

/-- Modelled from the spec: the store's atomic transactional write with
token deduplication (spec §4.3): an unseen token applies the batch and
records the fingerprint; a seen token with the same payload is a no-op
success; a seen token with a different payload fails with
`IdempotentParameterMismatch`. -/
def submitTransaction (store : StoreState) (payload : TransactionPayload) :
    Except Err StoreState :=
  match payload.clientRequestToken with
  | none =>
    .ok { committed := store.committed ++ [payload.requests]
          tokenTable := store.tokenTable }
  | some t =>
    match lookupToken t store.tokenTable with
    | none =>
      .ok { committed := store.committed ++ [payload.requests]
            tokenTable := store.tokenTable ++ [(t, payload.requests)] }
    | some fingerprint =>
      if fingerprint = payload.requests then .ok store
      else .error .idempotentParameterMismatch

/-- Modelled from the spec: a full commit — coordinator validation
followed by the store's atomic transactional write. -/
def transactionCommit (store : StoreState)
    (requests : List TransactionWriteRequest) (token : Option String) :
    Except Err StoreState :=
  match transactionWrite requests token with
  | .error e => .error e
  | .ok payload => submitTransaction store payload

/-! ### Auxiliary notions used by the statements -/

/-- `st₂` is a later state of the same name-mapping session as `st₁`:
the table has only grown at the tail and the counter has not moved
backwards.  Every `map` call produces an extension (see
`nameMapper_extends`). -/
def NameMapperState.Extends (st₂ st₁ : NameMapperState) : Prop :=
  (∃ l, st₂.attributeNameMap = st₁.attributeNameMap ++ l) ∧
    st₁.currentIndex ≤ st₂.currentIndex

/-- A whole session of value-mapper calls, in order, from a given
state: the returned placeholders and the final state. -/
def runValueMapper : List Value → ValueMapperState → List String × ValueMapperState
  | [], st => ([], st)
  | v :: vs, st =>
    let (r, st₁) := st.map v
    let (rs, st₂) := runValueMapper vs st₁
    (r :: rs, st₂)

/-- The access pattern with its partition role removed (no partition key
paths declared). -/
def stripPartitionRole (p : AccessPattern) : AccessPattern :=
  { p with partitionKeys := [] }

/-- The access pattern with its sort role removed (no sort key paths
declared). -/
def stripSortRole (p : AccessPattern) : AccessPattern :=
  { p with sortKeys := none }

/-- The same collection with a different access-pattern list (name and
layout untouched). -/
def withAccessPatterns (coll : Collection) (aps : List AccessPattern) : Collection :=
  { coll with accessPatterns := some aps }

/-! ### Concrete instances used by the witnesses and counterexamples -/

/-- Concrete collection for the C7 witness. -/
def c7Collection : Collection := ⟨"users", ⟨"tbl", []⟩, none⟩

/-- Concrete updates map for the C7 witness: `b` set to `undefined`. -/
def c7Updates : Updates := [("a", some (.str "x")), ("b", none)]

/-- Concrete batch for the C5 witness: a replace and a delete for the
same `(collection, id)` pair. -/
def c5Requests : List TransactionWriteRequest :=
  [.replaceReq "users" "test-id-1" (.obj (.cons "firstName" (.str "Neo") .nil)) none,
   .deleteReq "users" "test-id-1"]

/-- Concrete store and batches for the C6 witness. -/
def c6Batch : List TransactionWriteRequest :=
  [.insertReq "users" "test-bob" (.obj (.cons "firstName" (.str "Sponge") .nil)) none]

/-- A different batch for the C6 witness. -/
def c6OtherBatch : List TransactionWriteRequest :=
  [.insertReq "users" "test-pat" (.obj (.cons "firstName" (.str "Patrick") .nil)) none]

/-- Concrete collection for the C1 counterexample: one access pattern
whose partition key paths are `a` and `b.c`. -/
def c1Collection : Collection :=
  ⟨"users", ⟨"User", [⟨"ix", "gs1pk", some "gs1sk"⟩]⟩,
   some [⟨"ix", [["a"], ["b", "c"]], none⟩]⟩

/-- Updates for the C1 counterexample: `a` is set directly and `b` is
replaced by an object lacking the sub-field `c`, so both partition key
paths match (the second as an ancestor) yet `b.c` resolves absent. -/
def c1Updates : Updates := [("a", some (.str "x")), ("b", some (.obj .nil))]

/-- Concrete collection for the C1 witness: a two-field partition key. -/
def c1wCollection : Collection :=
  ⟨"users", ⟨"User", [⟨"ix", "gs1pk", some "gs1sk"⟩]⟩,
   some [⟨"ix", [["a"], ["b"]], none⟩]⟩

/-- Updates supplying both partition key fields for the C1 witness. -/
def c1wUpdates : Updates := [("a", some (.str "x")), ("b", some (.str "y"))]

/-- Concrete collection for the C2 counterexample: composite sort key
`a.b`, `c`; partition key `p`. -/
def c2Collection : Collection :=
  ⟨"users", ⟨"User", [⟨"ix", "gs1pk", some "gs1sk"⟩]⟩,
   some [⟨"ix", [["p"]], some [["a", "b"], ["c"]]⟩]⟩

/-- Updates for the C2 counterexample: `a` replaced by an object lacking
`b`, `c` untouched — the update paths match a non-empty proper subset of
the sort key paths, yet every matched value resolves absent. -/
def c2Updates : Updates := [("a", some (.obj (.cons "x" (.str "1") .nil)))]

/-- Concrete collection for the C2 witness: two-field sort key `a`, `b`.
-/
def c2wCollection : Collection :=
  ⟨"users", ⟨"User", [⟨"ix", "gs1pk", some "gs1sk"⟩]⟩,
   some [⟨"ix", [["p"]], some [["a"], ["b"]]⟩]⟩

/-- Concrete collection for the C3 witness: sort key path `a.b`. -/
def c3Collection : Collection :=
  ⟨"users", ⟨"User", [⟨"ix", "gs1pk", some "gs1sk"⟩]⟩,
   some [⟨"ix", [["p"]], some [["a", "b"]]⟩]⟩

/-- C3 witness updates that make the sort value resolve absent
(`a` replaced without `b`). -/
def c3RemUpdates : Updates := [("a", some (.obj .nil))]

/-- C3 witness updates that supply the sort value (`a.b` via `a`). -/
def c3SetUpdates : Updates := [("a", some (.obj (.cons "b" (.str "v") .nil)))]

/-- Concrete collection for the C4 witness. -/
def c4Collection : Collection :=
  ⟨"users", ⟨"User", [⟨"ix", "gs1pk", some "gs1sk"⟩]⟩,
   some [⟨"ix", [["p"]], some [["s"]]⟩]⟩

/-- Concrete collection for the C8 witness: the spec's end-to-end
scenario (index keyed on `email`). -/
def c8Collection : Collection :=
  ⟨"users", ⟨"User", [⟨"byEmail", "gs1pk", none⟩]⟩,
   some [⟨"byEmail", [["email"]], none⟩]⟩

/-- Concrete updates for the C8 witness. -/
def c8Updates : Updates := [("email", some (.str "new@x.com"))]

/-! ## Theorems

First the supporting lemmas about decimal rendering and the mappers,
then one theorem (with counterexample/witness companions) per claim. -/

theorem decValue_natDigitsCore : ∀ fuel n, n ≤ fuel → decValue (natDigitsCore fuel n) = n := by
  intro fuel
  induction fuel with
  | zero =>
    intro n hn
    interval_cases n
    simp [natDigitsCore, decValue]
  | succ f ih =>
    intro n hn
    by_cases h : n < 10
    · simp [natDigitsCore, h, decValue]
    · have hdiv : n / 10 ≤ f := by
        have h10 : 10 ≤ n := Nat.le_of_not_lt h
        have : n / 10 < n := Nat.div_lt_self (by omega) (by omega)
        omega
      simp only [natDigitsCore, if_neg h, decValue, ih (n / 10) hdiv]
      omega

theorem natDigitsLE_inj {m n : Nat} (h : natDigitsLE m = natDigitsLE n) : m = n := by
  have hm := decValue_natDigitsCore (m + 1) m (Nat.le_succ m)
  have hn := decValue_natDigitsCore (n + 1) n (Nat.le_succ n)
  rw [← hm, ← hn]
  exact congrArg decValue h

theorem natDigitsCore_lt_ten : ∀ fuel n, n ≤ fuel → ∀ d ∈ natDigitsCore fuel n, d < 10 := by
  intro fuel
  induction fuel with
  | zero =>
    intro n hn d hd
    interval_cases n
    simp [natDigitsCore] at hd
  | succ f ih =>
    intro n hn d hd
    by_cases h : n < 10
    · simp [natDigitsCore, h] at hd
      omega
    · simp only [natDigitsCore, if_neg h, List.mem_cons] at hd
      rcases hd with hd | hd
      · omega
      · have hdiv : n / 10 ≤ f := by
          have : n / 10 < n := Nat.div_lt_self (by omega) (by omega)
          omega
        exact ih (n / 10) hdiv d hd

theorem decDigitChar_inj {d e : Nat} (hd : d < 10) (he : e < 10)
    (h : decDigitChar d = decDigitChar e) : d = e := by
  interval_cases d <;> interval_cases e <;> simp_all [decDigitChar]

theorem map_decDigitChar_inj :
    ∀ l₁ l₂ : List Nat, (∀ d ∈ l₁, d < 10) → (∀ d ∈ l₂, d < 10) →
      l₁.map decDigitChar = l₂.map decDigitChar → l₁ = l₂ := by
  intro l₁
  induction l₁ with
  | nil =>
    intro l₂ _ _ h
    cases l₂ with
    | nil => rfl
    | cons b bs => simp at h
  | cons a as ih =>
    intro l₂ h₁ h₂ h
    cases l₂ with
    | nil => simp at h
    | cons b bs =>
      simp only [List.map_cons, List.cons.injEq] at h
      have ha : a < 10 := h₁ a (List.mem_cons_self a as)
      have hb : b < 10 := h₂ b (List.mem_cons_self b bs)
      have hab : a = b := decDigitChar_inj ha hb h.1
      have hrest : as = bs :=
        ih bs (fun d hd => h₁ d (List.mem_cons_of_mem a hd))
          (fun d hd => h₂ d (List.mem_cons_of_mem b hd)) h.2
      rw [hab, hrest]

theorem natStr_inj {m n : Nat} (h : natStr m = natStr n) : m = n := by
  have hdata : ((natDigitsLE m).reverse.map decDigitChar) =
      ((natDigitsLE n).reverse.map decDigitChar) := congrArg String.data h
  have hm : ∀ d ∈ (natDigitsLE m).reverse, d < 10 := by
    intro d hd
    exact natDigitsCore_lt_ten (m + 1) m (Nat.le_succ m) d (List.mem_reverse.mp hd)
  have hn : ∀ d ∈ (natDigitsLE n).reverse, d < 10 := by
    intro d hd
    exact natDigitsCore_lt_ten (n + 1) n (Nat.le_succ n) d (List.mem_reverse.mp hd)
  have hrev := map_decDigitChar_inj _ _ hm hn hdata
  exact natDigitsLE_inj (List.reverse_injective hrev)

/-- Appending a common prefix string preserves distinctness of suffixes. -/
theorem string_append_left_cancel {s a b : String} (h : s ++ a = s ++ b) : a = b := by
  have hd : s.data ++ a.data = s.data ++ b.data := by
    have := congrArg String.data h
    simpa [String.data_append] using this
  cases a
  cases b
  simp only [List.append_cancel_left_eq] at hd
  exact congrArg String.mk hd

/-- A single `undefined` update value anywhere in the map makes the
primary loop fail with `InvalidUpdateValue`. -/
theorem primarySetLoop_undef : ∀ (u : Updates) (st : MapperSessions) (p : String),
    (p, (none : Option Value)) ∈ u →
    ∃ q, primarySetLoop u st = .error (.invalidUpdateValue q) := by
  intro u
  induction u with
  | nil =>
    intro st p hp
    simp at hp
  | cons e rest ih =>
    intro st p hp
    obtain ⟨path, v?⟩ := e
    cases v? with
    | none => exact ⟨path, rfl⟩
    | some v =>
      have hmem : (p, (none : Option Value)) ∈ rest := by
        rcases List.mem_cons.mp hp with h | h
        · simp at h
        · exact h
      obtain ⟨q, hq⟩ := ih ⟨(mapNameParts (splitPath path) st.names).2, (st.values.map v).2⟩ p hmem
      refine ⟨q, ?_⟩
      simp only [primarySetLoop]
      rw [hq]

/-- C7 (confirmed).  Undefined update value rejection: an updates map
containing a top-level path bound to `undefined` makes the compile fail
with `InvalidUpdateValue` (raised in the pure compilation prefix, i.e.
before any store call, so no mutation is issued for any path). -/
theorem undefined_update_value_rejected (collection : Collection) (updates : Updates)
    (p : String) (hmem : (p, (none : Option Value)) ∈ updates) :
    ∃ q, compileUpdate collection updates = .error (.invalidUpdateValue q) := by
  have hne : updates.length ≠ 0 := by
    intro h
    rw [List.length_eq_zero] at h
    subst h
    simp at hmem
  obtain ⟨q, hq⟩ := primarySetLoop_undef updates ⟨createNameMapper, createValueMapper⟩ p hmem
  refine ⟨q, ?_⟩
  simp only [compileUpdate, if_neg hne]
  rw [hq]

/-- Witness for C7 at a concrete input. -/
theorem undefined_update_value_rejected_witness :
    ((("b" : String), (none : Option Value)) ∈ c7Updates) ∧
    ∃ q, compileUpdate c7Collection c7Updates = .error (.invalidUpdateValue q) :=
  ⟨by decide, undefined_update_value_rejected c7Collection c7Updates "b" (by decide)⟩

/-- Every name-mapper call yields a later state of the same session. -/
theorem nameMapper_extends (st : NameMapperState) (n : String) :
    ((st.map n).2).Extends st := by
  unfold NameMapperState.map
  cases hs : isSafeAttributeName n with
  | true => exact ⟨⟨[], by simp⟩, le_refl _⟩
  | false =>
    cases hfind : st.attributeNameMap.find? (fun e => e.1 = n) with
    | some e => exact ⟨⟨[], by simp⟩, le_refl _⟩
    | none => exact ⟨⟨_, rfl⟩, Nat.le_succ _⟩

theorem nameMapper_extends_trans {st₃ st₂ st₁ : NameMapperState}
    (h₂ : st₃.Extends st₂) (h₁ : st₂.Extends st₁) : st₃.Extends st₁ := by
  obtain ⟨⟨l₂, hl₂⟩, hi₂⟩ := h₂
  obtain ⟨⟨l₁, hl₁⟩, hi₁⟩ := h₁
  exact ⟨⟨l₁ ++ l₂, by rw [hl₂, hl₁, List.append_assoc]⟩, le_trans hi₁ hi₂⟩

/-- A table entry found in an earlier session state is still the entry
found in every later state. -/
theorem nameMapper_find_of_extends {st₂ st₁ : NameMapperState} (h : st₂.Extends st₁)
    {n : String} {e : String × String}
    (hf : st₁.attributeNameMap.find? (fun x => x.1 = n) = some e) :
    st₂.attributeNameMap.find? (fun x => x.1 = n) = some e := by
  obtain ⟨⟨l, hl⟩, _⟩ := h
  rw [hl, List.find?_append, hf]
  rfl

/-- C9 (confirmed).  Name-mapping stability and safe-name passthrough:
a safe name passes through unchanged with no table entry added; the
placeholder returned for a name is stable — mapping the same name again
in the same or any later session state returns the same placeholder and
changes nothing; an unsafe name unseen so far receives the synthetic
placeholder `#attr<currentIndex>` and bumps the counter by one (so
distinct unsafe names receive monotonically increasing, pairwise
distinct placeholder indices in first-seen order, the counter never
decreasing across calls). -/
theorem name_mapping_stability (st : NameMapperState) (n : String) :
    (isSafeAttributeName n = true → st.map n = (n, st)) ∧
    (∀ (p : String) (st₁ st₂ : NameMapperState),
      st.map n = (p, st₁) → st₂.Extends st₁ → st₂.map n = (p, st₂)) ∧
    ((st.map n).2).Extends st ∧
    (isSafeAttributeName n = false →
      st.attributeNameMap.find? (fun e => e.1 = n) = none →
      st.map n = ("#attr" ++ natStr st.currentIndex,
        ⟨st.currentIndex + 1,
         st.attributeNameMap ++ [(n, "#attr" ++ natStr st.currentIndex)]⟩)) ∧
    (∀ m : Nat, m ≠ st.currentIndex → "#attr" ++ natStr m ≠ "#attr" ++ natStr st.currentIndex) := by
  refine ⟨?safe, ?stable, nameMapper_extends st n, ?fresh, ?distinct⟩
  case safe =>
    intro hs
    unfold NameMapperState.map
    rw [hs]
    simp
  case stable =>
    intro p st₁ st₂ hmap hext
    cases hs : isSafeAttributeName n with
    | true =>
      have hsafe : st.map n = (n, st) := by
        unfold NameMapperState.map
        rw [hs]
        simp
      rw [hsafe] at hmap
      have hp : n = p := congrArg Prod.fst hmap
      unfold NameMapperState.map
      rw [hs]
      simp [hp]
    | false =>
      unfold NameMapperState.map at hmap ⊢
      rw [hs] at hmap ⊢
      simp only [Bool.false_eq_true, if_false] at hmap ⊢
      cases hfind : st.attributeNameMap.find? (fun e => e.1 = n) with
      | some e =>
        rw [hfind] at hmap
        have hp : e.2 = p := congrArg Prod.fst hmap
        have hst : st = st₁ := congrArg Prod.snd hmap
        have : st₂.attributeNameMap.find? (fun x => x.1 = n) = some e :=
          nameMapper_find_of_extends (hst ▸ hext) hfind
        rw [this]
        show (e.2, st₂) = (p, st₂)
        rw [hp]
      | none =>
        rw [hfind] at hmap
        have hp : "#attr" ++ natStr st.currentIndex = p := congrArg Prod.fst hmap
        have hst : (⟨st.currentIndex + 1,
            st.attributeNameMap ++ [(n, "#attr" ++ natStr st.currentIndex)]⟩ : NameMapperState)
            = st₁ := congrArg Prod.snd hmap
        have hfound : st₁.attributeNameMap.find? (fun x => x.1 = n) =
            some (n, "#attr" ++ natStr st.currentIndex) := by
          rw [← hst]
          show (st.attributeNameMap ++
            [(n, "#attr" ++ natStr st.currentIndex)]).find? (fun x => x.1 = n) = _
          rw [List.find?_append, hfind]
          simp
        have : st₂.attributeNameMap.find? (fun x => x.1 = n) =
            some (n, "#attr" ++ natStr st.currentIndex) :=
          nameMapper_find_of_extends hext hfound
        rw [this]
        show ("#attr" ++ natStr st.currentIndex, st₂) = (p, st₂)
        rw [hp]
  case fresh =>
    intro hs hfind
    unfold NameMapperState.map
    rw [hs]
    simp only [Bool.false_eq_true, if_false]
    rw [hfind]
  case distinct =>
    intro m hm hcontra
    exact hm (natStr_inj (string_append_left_cancel hcontra))

/-- Witness for C9 at concrete inputs: the safe name `email` passes
through the fresh session unchanged, and the reserved name `count`
receives the synthetic placeholder of index `0`. -/
theorem name_mapping_stability_witness :
    createNameMapper.map "email" = ("email", createNameMapper) ∧
    createNameMapper.map "count" = ("#attr" ++ natStr 0,
      ⟨1, [("value", "#value"), ("count", "#attr" ++ natStr 0)]⟩) := by
  refine ⟨(name_mapping_stability createNameMapper "email").1 (by decide), ?_⟩
  have h := (name_mapping_stability createNameMapper "count").2.2.2.1 (by decide) (by decide)
  exact h

/-- The session behaviour of a run of value-mapper calls from an
arbitrary state: returned placeholders carry consecutive indices from
the state's counter, the counter advances by the number of calls, and
the table gains exactly one binding per call, in order. -/
theorem runValueMapper_spec : ∀ (vs : List Value) (st : ValueMapperState),
    (runValueMapper vs st).1 =
      (List.range vs.length).map (fun i => ":value" ++ natStr (st.currentIndex + i)) ∧
    (runValueMapper vs st).2.currentIndex = st.currentIndex + vs.length ∧
    (runValueMapper vs st).2.valueMap =
      st.valueMap ++ List.zipWith
        (fun i v => (":value" ++ natStr (st.currentIndex + i), converterInput v))
        (List.range vs.length) vs := by
  intro vs
  induction vs with
  | nil =>
    intro st
    exact ⟨rfl, rfl, by simp [runValueMapper]⟩
  | cons v rest ih =>
    intro st
    obtain ⟨h₁, h₂, h₃⟩ := ih ⟨st.currentIndex + 1,
      st.valueMap ++ [(":value" ++ natStr st.currentIndex, converterInput v)]⟩
    have harith : ∀ i : Nat, st.currentIndex + 1 + i = st.currentIndex + (i + 1) :=
      fun i => by omega
    refine ⟨?_, ?_, ?_⟩
    · show (":value" ++ natStr st.currentIndex) :: (runValueMapper rest _).1 = _
      rw [h₁]
      simp only [harith, List.length_cons, List.range_succ_eq_map, List.map_cons,
        List.map_map, Nat.add_zero, Function.comp_def]
    · show (runValueMapper rest _).2.currentIndex = _
      rw [h₂]
      simp only [List.length_cons]
      omega
    · show (runValueMapper rest _).2.valueMap = _
      rw [h₃]
      simp only [harith, List.length_cons, List.range_succ_eq_map, List.zipWith_cons_cons,
        List.zipWith_map_left, List.append_assoc, Nat.add_zero, List.singleton_append]

/-- Distinct counter values give distinct `:value<i>` placeholders. -/
theorem valueRef_injective : Function.Injective (fun i : Nat => ":value" ++ natStr i) := by
  intro i j h
  exact natStr_inj (string_append_left_cancel h)

/-- C10 (confirmed).  Value placeholders are always fresh: a session of
value-mapper calls returns the placeholders `:value0, :value1, …` in
call order — pairwise distinct even for equal argument values, with no
deduplication — and the extracted `ExpressionAttributeValues` table
binds each placeholder to the marshalled value of exactly the call that
created it. -/
theorem value_placeholders_fresh (vs : List Value) (refs : List String)
    (fin : ValueMapperState)
    (h : runValueMapper vs createValueMapper = (refs, fin)) :
    refs = (List.range vs.length).map (fun i => ":value" ++ natStr i) ∧
    refs.Nodup ∧
    fin.get = List.zipWith (fun i v => (":value" ++ natStr i, converterInput v))
      (List.range vs.length) vs := by
  obtain ⟨h₁, h₂, h₃⟩ := runValueMapper_spec vs createValueMapper
  rw [h] at h₁ h₃
  simp only [createValueMapper, Nat.zero_add] at h₁ h₃
  refine ⟨h₁, ?_, ?_⟩
  · rw [h₁]
    exact (List.nodup_range vs.length).map valueRef_injective
  · show fin.valueMap = _
    rw [h₃]
    simp

/-- Witness for C10: mapping the same value twice still yields two
distinct placeholders and two separate table bindings. -/
theorem value_placeholders_fresh_witness :
    (runValueMapper [Value.str "x", Value.str "x"] createValueMapper).1.Nodup ∧
    (runValueMapper [Value.str "x", Value.str "x"] createValueMapper).2.get =
      [(":value" ++ natStr 0, converterInput (Value.str "x")),
       (":value" ++ natStr 1, converterInput (Value.str "x"))] := by
  have h := value_placeholders_fresh [Value.str "x", Value.str "x"]
      (runValueMapper [Value.str "x", Value.str "x"] createValueMapper).1
      (runValueMapper [Value.str "x", Value.str "x"] createValueMapper).2 rfl
  exact ⟨h.2.1, h.2.2⟩

/-- A list containing two positions with the same target has a
duplicate. -/
theorem hasDuplicateTargets_of_get :
    ∀ (l : List (String × String)) (i j : Nat) (hij : i < j) (hj : j < l.length),
      l.get ⟨i, lt_trans hij hj⟩ = l.get ⟨j, hj⟩ → hasDuplicateTargets l = true := by
  intro l
  induction l with
  | nil =>
    intro i j hij hj
    simp at hj
  | cons t ts ih =>
    intro i j hij hj heq
    cases i with
    | zero =>
      cases j with
      | zero => omega
      | succ j' =>
        have hmem : t ∈ ts := by
          have h : t = ts.get ⟨j', by simpa using hj⟩ := heq
          rw [h]
          exact ts.get_mem _ _
        simp only [hasDuplicateTargets, Bool.or_eq_true]
        left
        simpa using hmem
    | succ i' =>
      cases j with
      | zero => omega
      | succ j' =>
        have hrec := ih i' j' (by omega) (by simpa using hj) heq
        simp only [hasDuplicateTargets, Bool.or_eq_true]
        right
        exact hrec

/-- C5 (confirmed; the coordinator is modelled from the spec, its source
not being part of the embedded tree).  Duplicate-target rejection: a
batch containing two write requests — of any kinds — that target the
same `(collection, id)` pair fails validation with
`TransactionValidation`; the coordinator raises the error itself, so the
commit returns it before any store submission and no writes are
applied. -/
theorem duplicate_target_rejected (reqs : List TransactionWriteRequest)
    (token : Option String) (i j : Nat) (hij : i < j) (hj : j < reqs.length)
    (heq : (reqs.get ⟨i, lt_trans hij hj⟩).target = (reqs.get ⟨j, hj⟩).target) :
    transactionWrite reqs token = .error .transactionValidation ∧
    ∀ store : StoreState,
      transactionCommit store reqs token = .error .transactionValidation := by
  have hdup : hasDuplicateTargets (reqs.map (fun r => r.target)) = true := by
    apply hasDuplicateTargets_of_get (reqs.map (fun r => r.target)) i j hij
      (by simpa using hj)
    have heq2 := heq
    simp only [List.get_eq_getElem] at heq2
    simp only [List.get_eq_getElem, List.getElem_map]
    exact heq2
  have hw : transactionWrite reqs token = .error .transactionValidation := by
    unfold transactionWrite
    by_cases hlen : reqs.length > transactionSizeLimit
    · simp [hlen]
    · simp [hlen, hdup]
  refine ⟨hw, fun store => ?_⟩
  unfold transactionCommit
  rw [hw]

/-- Witness for C5 at a concrete batch and store. -/
theorem duplicate_target_rejected_witness :
    transactionWrite c5Requests none = .error .transactionValidation ∧
    transactionCommit ⟨[], []⟩ c5Requests none = .error .transactionValidation := by
  have h := duplicate_target_rejected c5Requests none 0 1 (by decide) (by decide) (by decide)
  exact ⟨h.1, h.2 ⟨[], []⟩⟩

/-- C6 (confirmed; the coordinator and the store's token bookkeeping are
modelled from the spec, their source not being part of the embedded
tree).  Idempotency-token semantics: after a successful commit of a
batch with a token, recommitting the identical batch with the same token
is a no-op success leaving the store state — including the journal of
applied batches — exactly as it was, while committing any different
batch (that itself passes validation) with the same token fails with
`IdempotentParameterMismatch`. -/
theorem submitTransaction_token (store : StoreState)
    (reqs : List TransactionWriteRequest) (t : String) :
    submitTransaction store ⟨reqs, some t⟩ =
      (match lookupToken t store.tokenTable with
        | none => .ok ⟨store.committed ++ [reqs], store.tokenTable ++ [(t, reqs)]⟩
        | some fingerprint =>
          if fingerprint = reqs then .ok store
          else .error .idempotentParameterMismatch) := rfl

theorem transactionCommit_eq_submit {reqs : List TransactionWriteRequest}
    {token : Option String} {payload : TransactionPayload}
    (store : StoreState) (hw : transactionWrite reqs token = .ok payload) :
    transactionCommit store reqs token = submitTransaction store payload := by
  unfold transactionCommit
  rw [hw]

theorem transactionWrite_ok (reqs : List TransactionWriteRequest)
    (token : Option String) (hlen : reqs.length ≤ transactionSizeLimit)
    (hdup : hasDuplicateTargets (reqs.map (fun r => r.target)) = false) :
    transactionWrite reqs token = .ok ⟨reqs, token⟩ := by
  unfold transactionWrite
  rw [if_neg (by omega), if_neg (by simp [hdup])]

theorem transactionWrite_ok_inv {reqs : List TransactionWriteRequest}
    {token : Option String} {payload : TransactionPayload}
    (hw : transactionWrite reqs token = .ok payload) : payload = ⟨reqs, token⟩ := by
  unfold transactionWrite at hw
  by_cases h₁ : reqs.length > transactionSizeLimit
  · rw [if_pos h₁] at hw
    exact absurd hw (by simp)
  · rw [if_neg h₁] at hw
    by_cases h₂ : hasDuplicateTargets (reqs.map (fun r => r.target)) = true
    · rw [if_pos h₂] at hw
      exact absurd hw (by simp)
    · rw [if_neg h₂] at hw
      exact (Except.ok.inj hw).symm

theorem idempotency_token_semantics (store : StoreState)
    (reqs : List TransactionWriteRequest) (t : String) (store₁ : StoreState)
    (hfirst : transactionCommit store reqs (some t) = .ok store₁) :
    transactionCommit store₁ reqs (some t) = .ok store₁ ∧
    ∀ reqs' : List TransactionWriteRequest, reqs' ≠ reqs →
      reqs'.length ≤ transactionSizeLimit →
      hasDuplicateTargets (reqs'.map (fun r => r.target)) = false →
      transactionCommit store₁ reqs' (some t) =
        .error .idempotentParameterMismatch := by
  cases hw : transactionWrite reqs (some t) with
  | error e =>
    unfold transactionCommit at hfirst
    rw [hw] at hfirst
    exact absurd hfirst (by simp)
  | ok payload =>
    have hpayload := transactionWrite_ok_inv hw
    subst hpayload
    have hsub : submitTransaction store ⟨reqs, some t⟩ = .ok store₁ := by
      rw [← transactionCommit_eq_submit store hw]
      exact hfirst
    rw [submitTransaction_token] at hsub
    have hlook : lookupToken t store₁.tokenTable = some reqs := by
      cases hlk : lookupToken t store.tokenTable with
      | none =>
        rw [hlk] at hsub
        have hst : (⟨store.committed ++ [reqs],
            store.tokenTable ++ [(t, reqs)]⟩ : StoreState) = store₁ :=
          Except.ok.inj hsub
        rw [← hst]
        show lookupToken t (store.tokenTable ++ [(t, reqs)]) = some reqs
        unfold lookupToken at hlk ⊢
        rw [List.find?_append]
        cases hfd : store.tokenTable.find? (fun e => e.1 = t) with
        | some e =>
          rw [hfd] at hlk
          simp at hlk
        | none =>
          simp
      | some fp =>
        rw [hlk] at hsub
        have hsub₂ : (if fp = reqs then Except.ok store
            else Except.error Err.idempotentParameterMismatch) = Except.ok store₁ := hsub
        by_cases hfp : fp = reqs
        · rw [if_pos hfp] at hsub₂
          have hst : store = store₁ := Except.ok.inj hsub₂
          rw [← hst, hlk, hfp]
        · rw [if_neg hfp] at hsub₂
          exact absurd hsub₂ (by simp)
    constructor
    · rw [transactionCommit_eq_submit store₁ hw, submitTransaction_token, hlook]
      show (if reqs = reqs then Except.ok store₁
          else Except.error Err.idempotentParameterMismatch) = Except.ok store₁
      rw [if_pos rfl]
    · intro reqs' hne hlen hdup
      have hw' : transactionWrite reqs' (some t) = .ok ⟨reqs', some t⟩ :=
        transactionWrite_ok reqs' (some t) hlen hdup
      rw [transactionCommit_eq_submit store₁ hw', submitTransaction_token, hlook]
      show (if reqs = reqs' then Except.ok store₁
          else Except.error Err.idempotentParameterMismatch) =
        Except.error Err.idempotentParameterMismatch
      rw [if_neg (fun h => hne h.symm)]

/-- Witness for C6: committing `c6Batch` twice with token `tok` is a
no-op success the second time, and committing a different batch with the
same token fails with `IdempotentParameterMismatch`. -/
theorem idempotency_token_semantics_witness :
    transactionCommit ⟨[c6Batch], [("tok", c6Batch)]⟩ c6Batch (some "tok") =
      .ok ⟨[c6Batch], [("tok", c6Batch)]⟩ ∧
    transactionCommit ⟨[c6Batch], [("tok", c6Batch)]⟩ c6OtherBatch (some "tok") =
      .error .idempotentParameterMismatch := by
  have h := idempotency_token_semantics ⟨[], []⟩ c6Batch "tok"
      ⟨[c6Batch], [("tok", c6Batch)]⟩ rfl
  exact ⟨h.1, h.2 c6OtherBatch (by decide) (by decide) (by decide)⟩

/-! ### Supporting lemmas for the compiler claims -/

theorem all_isNone_false_of_all_isSome {α : Type} {l : List (Option α)}
    (hne : l ≠ []) (h : l.all (fun v => v.isSome) = true) :
    l.all (fun v => v.isNone) = false := by
  cases l with
  | nil => exact absurd rfl hne
  | cons x xs =>
    simp only [List.all_cons, Bool.and_eq_true] at h
    cases x with
    | none => simp at h
    | some a => simp

theorem any_isNone_false_of_all_isSome {α : Type} {l : List (Option α)}
    (h : l.all (fun v => v.isSome) = true) :
    l.any (fun v => v.isNone) = false := by
  induction l with
  | nil => rfl
  | cons x xs ih =>
    simp only [List.all_cons, Bool.and_eq_true] at h
    cases x with
    | none => simp at h
    | some a => simpa using ih h.2

/-- `createUpdateActionForKey` skips (returns no action) when no key
path of the role matches any update path. -/
theorem createUpdateActionForKey_skip (collectionName : String) (keyType : KeyType)
    (keyPaths : List KeyPath) (layout : SecondaryIndexLayout) (updates : Updates)
    (h : (keyPaths.map (findMatchingPath (extractUpdateKeyPaths updates))).all
      (fun m => m.isNone) = true) :
    createUpdateActionForKey collectionName keyType keyPaths layout updates = .ok none := by
  unfold createUpdateActionForKey
  rw [if_pos h]

/-- `createUpdateActionForKey` rejects a partially matched partition key
with `InvalidUpdates`. -/
theorem createUpdateActionForKey_partition_partial (collectionName : String)
    (keyPaths : List KeyPath) (layout : SecondaryIndexLayout) (updates : Updates)
    (h₁ : (keyPaths.map (findMatchingPath (extractUpdateKeyPaths updates))).all
      (fun m => m.isNone) = false)
    (h₂ : (keyPaths.map (findMatchingPath (extractUpdateKeyPaths updates))).any
      (fun m => m.isNone) = true) :
    createUpdateActionForKey collectionName .partition keyPaths layout updates =
      .error .invalidUpdates := by
  unfold createUpdateActionForKey
  rw [if_neg (by simp [h₁]), if_pos ⟨rfl, h₂⟩]

/-- When at least one path matches and the partition all-or-nothing gate
passes, `createUpdateActionForKey` defers to the composite-key
assembler. -/
theorem createUpdateActionForKey_assemble (collectionName : String) (keyType : KeyType)
    (keyPaths : List KeyPath) (layout : SecondaryIndexLayout) (updates : Updates)
    (h₁ : (keyPaths.map (findMatchingPath (extractUpdateKeyPaths updates))).all
      (fun m => m.isNone) = false)
    (h₂ : keyType = KeyType.partition →
      (keyPaths.map (findMatchingPath (extractUpdateKeyPaths updates))).any
        (fun m => m.isNone) = false) :
    createUpdateActionForKey collectionName keyType keyPaths layout updates =
      (match assembleIndexedValue keyType collectionName
          (resolvedKeyValues updates keyPaths) with
        | .error e => .error e
        | .ok v => .ok (some ⟨roleAttributeName keyType layout, v⟩)) := by
  have hneg : ¬ (keyType = KeyType.partition ∧
      ((keyPaths.map (findMatchingPath (extractUpdateKeyPaths updates))).any
        (fun m => m.isNone)) = true) := by
    intro hcontra
    rw [h₂ hcontra.1] at hcontra
    exact absurd hcontra.2 (by simp)
  unfold createUpdateActionForKey
  rw [if_neg (by simp [h₁]), if_neg hneg]

/-- Unfolding of `compileUpdate` for a non-empty updates map. -/
theorem compileUpdate_eq (coll : Collection) (updates : Updates)
    (hne : updates.length ≠ 0) :
    compileUpdate coll updates =
      (match primarySetLoop updates ⟨createNameMapper, createValueMapper⟩ with
        | .error e => .error e
        | .ok (primaryActions, st) =>
          match mapAccessPatterns coll st updates with
          | .error e => .error e
          | .ok (idxSet, idxDel, st') =>
            .ok { setActions := primaryActions ++ idxSet
                  deleteActions := idxDel
                  expressionAttributeNames := st'.names.get
                  expressionAttributeValues := st'.values.get
                  updateExpression :=
                    renderUpdateExpression (primaryActions ++ idxSet) idxDel }) := by
  unfold compileUpdate
  rw [if_neg hne]

/-- Unfolding of `mapAccessPatterns` for a single-pattern collection. -/
theorem mapAccessPatterns_single (coll : Collection) (p : AccessPattern)
    (st : MapperSessions) (updates : Updates) (hap : coll.accessPatterns = some [p]) :
    mapAccessPatterns coll st updates =
      (match applyPartitionPattern coll updates p ([], [], st) with
        | .error e => .error e
        | .ok acc₁ =>
          match applySortPattern coll updates p acc₁ with
          | .error e => .error e
          | .ok acc₂ => .ok acc₂) := by
  unfold mapAccessPatterns
  rw [hap]
  show mapAccessPatternsGo coll updates [p] ([], [], st) = _
  unfold mapAccessPatternsGo
  cases applyPartitionPattern coll updates p ([], [], st) with
  | error e => rfl
  | ok acc₁ =>
    cases applySortPattern coll updates p acc₁ with
    | error e => rfl
    | ok acc₂ => rfl

/-- `compileUpdate` after a successful primary loop reduces to the
index-action stage. -/
theorem compileUpdate_ok_eq (coll : Collection) (updates : Updates)
    (hne : updates.length ≠ 0) (prim : List String) (stMid : MapperSessions)
    (hprim : primarySetLoop updates ⟨createNameMapper, createValueMapper⟩ =
      .ok (prim, stMid)) :
    compileUpdate coll updates =
      (match mapAccessPatterns coll stMid updates with
        | .error e => .error e
        | .ok acc =>
          .ok { setActions := prim ++ acc.1
                deleteActions := acc.2.1
                expressionAttributeNames := acc.2.2.names.get
                expressionAttributeValues := acc.2.2.values.get
                updateExpression := renderUpdateExpression (prim ++ acc.1) acc.2.1 }) := by
  rw [compileUpdate_eq coll updates hne, hprim]
  show (match mapAccessPatterns coll stMid updates with
    | Except.error e => Except.error e
    | Except.ok (idxSet, idxDel, st') =>
      Except.ok (CompiledUpdate.mk (prim ++ idxSet) idxDel st'.names.get st'.values.get
        (renderUpdateExpression (prim ++ idxSet) idxDel))) = _
  cases mapAccessPatterns coll stMid updates with
  | error e => rfl
  | ok acc =>
    obtain ⟨a, b, c⟩ := acc
    rfl

/-- A successful primary loop: one action per update path in update
order, each binding the consecutive `:value<i>` placeholder. -/
theorem primarySetLoop_ok : ∀ (u : Updates) (st : MapperSessions),
    (∀ e ∈ u, e.2.isSome = true) →
    ∃ (acts : List String) (st' : MapperSessions),
      primarySetLoop u st = .ok (acts, st') ∧
      acts.length = u.length ∧
      st'.values.currentIndex = st.values.currentIndex + u.length ∧
      (∀ i (hi : i < acts.length), ∃ lhs : String,
        acts.get ⟨i, hi⟩ = lhs ++ " = " ++ (":value" ++ natStr (st.values.currentIndex + i))) := by
  intro u
  induction u with
  | nil =>
    intro st _
    exact ⟨[], st, rfl, rfl, by simp, fun i hi => absurd hi (by simp)⟩
  | cons e rest ih =>
    intro st hdef
    obtain ⟨path, v?⟩ := e
    cases v? with
    | none =>
      exact absurd (hdef (path, none) (List.mem_cons_self _ _)) (by simp)
    | some v =>
      obtain ⟨acts, st', hloop, hlen, hidx, hform⟩ :=
        ih ⟨(mapNameParts (splitPath path) st.names).2, (st.values.map v).2⟩
          (fun x hx => hdef x (List.mem_cons_of_mem _ hx))
      refine ⟨(joinSep "." ("#value" :: (mapNameParts (splitPath path) st.names).1) ++ " = " ++
          (st.values.map v).1) :: acts, st', ?_, ?_, ?_, ?_⟩
      · simp only [primarySetLoop]
        rw [hloop]
      · simpa using hlen
      · show st'.values.currentIndex = st.values.currentIndex + (rest.length + 1)
        have hv : (st.values.map v).2.currentIndex = st.values.currentIndex + 1 := rfl
        rw [hidx, hv]
        omega
      · intro i hi
        cases i with
        | zero =>
          exact ⟨joinSep "." ("#value" :: (mapNameParts (splitPath path) st.names).1), rfl⟩
        | succ i' =>
          obtain ⟨lhs, hl⟩ := hform i' (by simpa using hi)
          refine ⟨lhs, ?_⟩
          show acts.get ⟨i', _⟩ = _
          rw [hl]
          have hv : (st.values.map v).2.currentIndex = st.values.currentIndex + 1 := rfl
          rw [hv]
          have harith : st.values.currentIndex + 1 + i' = st.values.currentIndex + (i' + 1) := by
            omega
          rw [harith]

/-- C1 counterexample: every partition key path of the pattern matches
an update path, yet compilation does not succeed — the composite-key
assembler rejects the mixed present/absent partition values with
`InvalidUpdate`. -/
theorem partition_all_or_nothing_counterexample :
    ((([["a"], ["b", "c"]] : List KeyPath).map
        (findMatchingPath (extractUpdateKeyPaths c1Updates))).all
        (fun m => m.isSome) = true) ∧
    compileUpdate c1Collection c1Updates = .error .invalidUpdate :=
  ⟨by decide, rfl⟩

/-- C1 (corrected).  Partition keys are all-or-nothing: for a collection
whose single access pattern declares partition key paths (and no sort
keys), with an updates map free of `undefined` values: if at least one
partition key path matches an update path but not all of them do,
compilation fails with `InvalidUpdates`; if every partition key path
matches **and every matched value resolves to a present value** — the
amendment the counterexample forces — compilation succeeds and emits
exactly one `set` action on that index's partition key attribute (the
single index action, appended after the per-update primary actions,
with no `remove` actions). -/
theorem partition_all_or_nothing (coll : Collection) (p : AccessPattern)
    (layout : SecondaryIndexLayout) (updates : Updates)
    (hap : coll.accessPatterns = some [p])
    (hsort : p.sortKeys = none)
    (hpk : 0 < p.partitionKeys.length)
    (hlay : findCollectionIndex coll p.indexName = .ok layout)
    (hdef : ∀ e ∈ updates, e.2.isSome = true) :
    ((p.partitionKeys.map (findMatchingPath (extractUpdateKeyPaths updates))).all
        (fun m => m.isNone) = false →
      (p.partitionKeys.map (findMatchingPath (extractUpdateKeyPaths updates))).any
        (fun m => m.isNone) = true →
      compileUpdate coll updates = .error .invalidUpdates) ∧
    ((p.partitionKeys.map (findMatchingPath (extractUpdateKeyPaths updates))).all
        (fun m => m.isSome) = true →
      (resolvedKeyValues updates p.partitionKeys).all (fun v => v.isSome) = true →
      ∃ s : String,
        assembleIndexedValue .partition coll.name
          (resolvedKeyValues updates p.partitionKeys) = .ok (some s) ∧
        (∀ st : MapperSessions,
          mapAccessPatterns coll st updates =
            .ok ([(st.names.map layout.partitionKey).1 ++ " = " ++
                (st.values.map (optionalKeyValue (some s))).1], [],
              ⟨(st.names.map layout.partitionKey).2,
               (st.values.map (optionalKeyValue (some s))).2⟩)) ∧
        ∃ (r : CompiledUpdate) (prim : List String) (a : String),
          compileUpdate coll updates = .ok r ∧
          r.setActions = prim ++ [a] ∧ prim.length = updates.length ∧
          r.deleteActions = []) := by
  have hne_of : (p.partitionKeys.map
      (findMatchingPath (extractUpdateKeyPaths updates))).all
      (fun m => m.isNone) = false → updates.length ≠ 0 := by
    intro h₁ hlen0
    rw [List.length_eq_zero] at hlen0
    subst hlen0
    have hall : (p.partitionKeys.map
        (findMatchingPath (extractUpdateKeyPaths ([] : Updates)))).all
        (fun m => m.isNone) = true := by
      rw [List.all_eq_true]
      intro m hm
      obtain ⟨kp, _, hkp⟩ := List.mem_map.mp hm
      rw [← hkp]
      rfl
    rw [hall] at h₁
    exact absurd h₁ (by simp)
  constructor
  · intro h₁ h₂
    have hne := hne_of h₁
    obtain ⟨prim, stMid, hprim, _, _, _⟩ :=
      primarySetLoop_ok updates ⟨createNameMapper, createValueMapper⟩ hdef
    have hcreate := createUpdateActionForKey_partition_partial coll.name
      p.partitionKeys layout updates h₁ h₂
    have happly : applyPartitionPattern coll updates p ([], [], stMid) =
        .error .invalidUpdates := by
      unfold applyPartitionPattern
      rw [if_pos hpk]
      simp only [hlay, hcreate]
    have hmapAP : mapAccessPatterns coll stMid updates = .error .invalidUpdates := by
      rw [mapAccessPatterns_single coll p stMid updates hap]
      simp only [happly]
    rw [compileUpdate_ok_eq coll updates hne prim stMid hprim, hmapAP]
  · intro hAllSome hResolved
    have hmapsne : p.partitionKeys.map
        (findMatchingPath (extractUpdateKeyPaths updates)) ≠ [] := by
      intro hcontra
      rw [List.map_eq_nil_iff] at hcontra
      rw [hcontra] at hpk
      exact absurd hpk (by simp)
    have hAllNoneF := all_isNone_false_of_all_isSome hmapsne hAllSome
    have hAnyNoneF := any_isNone_false_of_all_isSome hAllSome
    have hne := hne_of hAllNoneF
    have hasm : assembleIndexedValue .partition coll.name
        (resolvedKeyValues updates p.partitionKeys) =
        .ok (some (coll.name ++ String.join ((resolvedKeyValues updates p.partitionKeys).map
          (fun v => "|" ++ escapeSeparator (valueToString (v.getD .null)))))) := by
      unfold assembleIndexedValue
      rw [if_pos hResolved]
    refine ⟨_, hasm, ?_⟩
    have hcreate : createUpdateActionForKey coll.name .partition p.partitionKeys
        layout updates =
        .ok (some ⟨layout.partitionKey, some (coll.name ++ String.join
          ((resolvedKeyValues updates p.partitionKeys).map
            (fun v => "|" ++ escapeSeparator (valueToString (v.getD .null)))))⟩) := by
      rw [createUpdateActionForKey_assemble coll.name .partition p.partitionKeys
        layout updates hAllNoneF (fun _ => hAnyNoneF), hasm]
      simp only [roleAttributeName]
    have hmapAP : ∀ st : MapperSessions,
        mapAccessPatterns coll st updates =
          .ok ([(st.names.map layout.partitionKey).1 ++ " = " ++
              (st.values.map (optionalKeyValue (some (coll.name ++ String.join
                ((resolvedKeyValues updates p.partitionKeys).map
                  (fun v => "|" ++ escapeSeparator (valueToString (v.getD .null)))))))).1],
            [],
            ⟨(st.names.map layout.partitionKey).2,
             (st.values.map (optionalKeyValue (some (coll.name ++ String.join
               ((resolvedKeyValues updates p.partitionKeys).map
                 (fun v => "|" ++ escapeSeparator (valueToString (v.getD .null)))))))).2⟩) := by
      intro st
      have happly : applyPartitionPattern coll updates p ([], [], st) =
          .ok ([(st.names.map layout.partitionKey).1 ++ " = " ++
              (st.values.map (optionalKeyValue (some (coll.name ++ String.join
                ((resolvedKeyValues updates p.partitionKeys).map
                  (fun v => "|" ++ escapeSeparator (valueToString (v.getD .null)))))))).1],
            [],
            ⟨(st.names.map layout.partitionKey).2,
             (st.values.map (optionalKeyValue (some (coll.name ++ String.join
               ((resolvedKeyValues updates p.partitionKeys).map
                 (fun v => "|" ++ escapeSeparator (valueToString (v.getD .null)))))))).2⟩) := by
        unfold applyPartitionPattern
        rw [if_pos hpk]
        simp only [hlay, hcreate, List.nil_append]
      rw [mapAccessPatterns_single coll p st updates hap]
      simp only [happly, applySortPattern, hsort]
    obtain ⟨prim, stMid, hprim, hplen, _, _⟩ :=
      primarySetLoop_ok updates ⟨createNameMapper, createValueMapper⟩ hdef
    have hcomp := compileUpdate_ok_eq coll updates hne prim stMid hprim
    rw [hmapAP stMid] at hcomp
    exact ⟨hmapAP, _, prim, _, hcomp, rfl, hplen, rfl⟩

/-- Witness for C1: updating only one of the two partition fields fails
with `InvalidUpdates`; updating both compiles with exactly one index
`set` action appended after the primary actions and no `remove`. -/
theorem partition_all_or_nothing_witness :
    compileUpdate c1wCollection [("a", some (.str "x"))] = .error .invalidUpdates ∧
    ∃ (r : CompiledUpdate) (prim : List String) (a : String),
      compileUpdate c1wCollection c1wUpdates = .ok r ∧
      r.setActions = prim ++ [a] ∧ prim.length = c1wUpdates.length ∧
      r.deleteActions = [] := by
  constructor
  · exact (partition_all_or_nothing c1wCollection ⟨"ix", [["a"], ["b"]], none⟩
      ⟨"ix", "gs1pk", some "gs1sk"⟩ [("a", some (.str "x"))] rfl rfl (by decide) rfl
      (by decide)).1 (by decide) (by decide)
  · obtain ⟨s, _, _, hrest⟩ := (partition_all_or_nothing c1wCollection
      ⟨"ix", [["a"], ["b"]], none⟩ ⟨"ix", "gs1pk", some "gs1sk"⟩ c1wUpdates rfl rfl
      (by decide) rfl (by decide)).2 (by decide) (by decide)
    exact hrest

/-- Against an empty updates map, no key path matches. -/
theorem matches_all_none_of_empty (keyPaths : List KeyPath) :
    (keyPaths.map (findMatchingPath (extractUpdateKeyPaths ([] : Updates)))).all
      (fun m => m.isNone) = true := by
  rw [List.all_eq_true]
  intro m hm
  obtain ⟨kp, _, hkp⟩ := List.mem_map.mp hm
  rw [← hkp]
  rfl

/-- An unmatched key path resolves to an absent value. -/
theorem resolved_any_none_of_match_any_none (updates : Updates) :
    ∀ keyPaths : List KeyPath,
    (keyPaths.map (findMatchingPath (extractUpdateKeyPaths updates))).any
      (fun m => m.isNone) = true →
    (resolvedKeyValues updates keyPaths).any (fun v => v.isNone) = true := by
  intro keyPaths
  induction keyPaths with
  | nil =>
    intro h
    simp at h
  | cons kp rest ih =>
    intro h
    simp only [List.map_cons, List.any_cons, Bool.or_eq_true] at h
    unfold resolvedKeyValues at ih ⊢
    simp only [List.map_cons, List.zipWith_cons_cons, List.any_cons, Bool.or_eq_true]
    rcases h with h | h
    · left
      cases hm : findMatchingPath (extractUpdateKeyPaths updates) kp with
      | none => simp
      | some mp =>
        rw [hm] at h
        simp at h
    · right
      exact ih h

theorem all_isSome_false_of_any_isNone {α : Type} {l : List (Option α)}
    (h : l.any (fun v => v.isNone) = true) : l.all (fun v => v.isSome) = false := by
  induction l with
  | nil => simp at h
  | cons x xs ih =>
    simp only [List.any_cons, Bool.or_eq_true] at h
    cases x with
    | none => simp
    | some a =>
      simp only [List.all_cons]
      rcases h with h | h
      · simp at h
      · simp [ih h]

theorem all_isNone_false_of_any_isSome {α : Type} {l : List (Option α)}
    (h : l.any (fun v => v.isSome) = true) : l.all (fun v => v.isNone) = false := by
  induction l with
  | nil => simp at h
  | cons x xs ih =>
    simp only [List.any_cons, Bool.or_eq_true] at h
    cases x with
    | some a => simp
    | none =>
      simp only [List.all_cons]
      rcases h with h | h
      · simp at h
      · simp [ih h]

/-- A pattern whose partition key paths are all unmatched contributes
nothing in the partition half of the loop. -/
theorem applyPartitionPattern_skip (coll : Collection) (updates : Updates)
    (p : AccessPattern) (layout : SecondaryIndexLayout)
    (acc : List String × List String × MapperSessions)
    (hlay : findCollectionIndex coll p.indexName = .ok layout)
    (hpart : (p.partitionKeys.map (findMatchingPath (extractUpdateKeyPaths updates))).all
      (fun m => m.isNone) = true) :
    applyPartitionPattern coll updates p acc = .ok acc := by
  unfold applyPartitionPattern
  by_cases hlen : p.partitionKeys.length > 0
  · rw [if_pos hlen]
    simp only [hlay,
      createUpdateActionForKey_skip coll.name .partition p.partitionKeys layout updates hpart]
  · rw [if_neg hlen]

/-- C2 counterexample: the update paths match a non-empty proper subset
of the pattern's sort key paths (`a.b` matched via its ancestor `a`,
`c` untouched), yet the operation does not fail — it compiles
successfully and emits a `remove` action on the sort attribute. -/
theorem no_partial_sort_counterexample :
    (([["a", "b"], ["c"]] : List KeyPath).map
        (findMatchingPath (extractUpdateKeyPaths c2Updates)) =
      [some ["a"], none]) ∧
    (compileUpdate c2Collection c2Updates).toOption.map (fun r => r.deleteActions) =
      some ["gs1sk"] :=
  ⟨by decide, rfl⟩

/-- C2 (corrected).  No partial composite sort keys: for a single-pattern
collection whose partition key paths are untouched and whose pattern
declares multiple sort key paths, if the update paths match a non-empty
proper subset of the sort key paths **and at least one matched value
resolves to a present value** — the amendment the counterexample
forces — compilation fails with `InvalidUpdate` rather than assembling a
partial composite sort-key value.  (When every matched value resolves
absent, the compiler instead removes the sort attribute.) -/
theorem no_partial_sort (coll : Collection) (p : AccessPattern)
    (layout : SecondaryIndexLayout) (updates : Updates) (sortKeys : List KeyPath)
    (hap : coll.accessPatterns = some [p])
    (hsk : p.sortKeys = some sortKeys)
    (hmulti : 1 < sortKeys.length)
    (hlay : findCollectionIndex coll p.indexName = .ok layout)
    (hdef : ∀ e ∈ updates, e.2.isSome = true)
    (hpart : (p.partitionKeys.map (findMatchingPath (extractUpdateKeyPaths updates))).all
      (fun m => m.isNone) = true)
    (hMatch : (sortKeys.map (findMatchingPath (extractUpdateKeyPaths updates))).all
      (fun m => m.isNone) = false)
    (hProper : (sortKeys.map (findMatchingPath (extractUpdateKeyPaths updates))).any
      (fun m => m.isNone) = true)
    (hPresent : (resolvedKeyValues updates sortKeys).any (fun v => v.isSome) = true) :
    compileUpdate coll updates = .error .invalidUpdate := by
  have hne : updates.length ≠ 0 := by
    intro hlen0
    rw [List.length_eq_zero] at hlen0
    subst hlen0
    rw [matches_all_none_of_empty sortKeys] at hMatch
    exact absurd hMatch (by simp)
  have hasm : assembleIndexedValue .sort coll.name (resolvedKeyValues updates sortKeys) =
      .error .invalidUpdate := by
    unfold assembleIndexedValue
    rw [if_neg (by simp [all_isSome_false_of_any_isNone
        (resolved_any_none_of_match_any_none updates sortKeys hProper)]),
      if_neg (by simp [all_isNone_false_of_any_isSome hPresent])]
  have hcreate : createUpdateActionForKey coll.name .sort sortKeys layout updates =
      .error .invalidUpdate := by
    rw [createUpdateActionForKey_assemble coll.name .sort sortKeys layout updates
      hMatch (fun h => absurd h (by simp)), hasm]
  obtain ⟨prim, stMid, hprim, _, _, _⟩ :=
    primarySetLoop_ok updates ⟨createNameMapper, createValueMapper⟩ hdef
  have hsortapp : applySortPattern coll updates p ([], [], stMid) =
      .error .invalidUpdate := by
    unfold applySortPattern
    simp only [hsk]
    rw [if_pos (by omega)]
    simp only [hlay, hcreate]
  have hmapAP : mapAccessPatterns coll stMid updates = .error .invalidUpdate := by
    rw [mapAccessPatterns_single coll p stMid updates hap]
    simp only [applyPartitionPattern_skip coll updates p layout ([], [], stMid) hlay hpart,
      hsortapp]
  rw [compileUpdate_ok_eq coll updates hne prim stMid hprim, hmapAP]

/-- Witness for C2: updating only sort field `a` (with `b` untouched)
fails with `InvalidUpdate`. -/
theorem no_partial_sort_witness :
    compileUpdate c2wCollection [("a", some (.str "x"))] = .error .invalidUpdate :=
  no_partial_sort c2wCollection ⟨"ix", [["p"]], some [["a"], ["b"]]⟩
    ⟨"ix", "gs1pk", some "gs1sk"⟩ [("a", some (.str "x"))] [["a"], ["b"]]
    rfl rfl (by decide) rfl (by decide) (by decide) (by decide) (by decide) (by decide)

/-- C3 (confirmed).  Sort-key set/remove decision: for a single-pattern
collection whose partition key paths are untouched, when at least one
sort key path matches an update path, the index-action emitter
(`mapAccessPatterns`) emits exactly one `remove` action on the index's
sort attribute and no `set` action when the assembled sort value is
undefined, and exactly one `set` action on that attribute and no
`remove` when the assembler produces a value. -/
theorem sort_set_remove_decision (coll : Collection) (p : AccessPattern)
    (layout : SecondaryIndexLayout) (updates : Updates) (sortKeys : List KeyPath)
    (hap : coll.accessPatterns = some [p])
    (hsk : p.sortKeys = some sortKeys)
    (hnz : 0 < sortKeys.length)
    (hlay : findCollectionIndex coll p.indexName = .ok layout)
    (hpart : (p.partitionKeys.map (findMatchingPath (extractUpdateKeyPaths updates))).all
      (fun m => m.isNone) = true)
    (hMatch : (sortKeys.map (findMatchingPath (extractUpdateKeyPaths updates))).all
      (fun m => m.isNone) = false) :
    (assembleIndexedValue .sort coll.name (resolvedKeyValues updates sortKeys) =
        .ok none →
      ∀ st : MapperSessions,
        mapAccessPatterns coll st updates =
          .ok ([], [(st.names.map (roleAttributeName .sort layout)).1],
            ⟨(st.names.map (roleAttributeName .sort layout)).2, st.values⟩)) ∧
    (∀ s : String,
      assembleIndexedValue .sort coll.name (resolvedKeyValues updates sortKeys) =
        .ok (some s) →
      ∀ st : MapperSessions,
        mapAccessPatterns coll st updates =
          .ok ([(st.names.map (roleAttributeName .sort layout)).1 ++ " = " ++
              (st.values.map (.str s)).1], [],
            ⟨(st.names.map (roleAttributeName .sort layout)).2,
             (st.values.map (.str s)).2⟩)) := by
  constructor
  · intro hasm st
    have hcreate : createUpdateActionForKey coll.name .sort sortKeys layout updates =
        .ok (some ⟨roleAttributeName .sort layout, none⟩) := by
      rw [createUpdateActionForKey_assemble coll.name .sort sortKeys layout updates
        hMatch (fun h => absurd h (by simp)), hasm]
    have hsortapp : applySortPattern coll updates p ([], [], st) =
        .ok ([], [(st.names.map (roleAttributeName .sort layout)).1],
          ⟨(st.names.map (roleAttributeName .sort layout)).2, st.values⟩) := by
      unfold applySortPattern
      simp only [hsk]
      rw [if_pos hnz]
      simp only [hlay, hcreate, List.nil_append]
    rw [mapAccessPatterns_single coll p st updates hap]
    simp only [applyPartitionPattern_skip coll updates p layout ([], [], st) hlay hpart,
      hsortapp]
  · intro s hasm st
    have hcreate : createUpdateActionForKey coll.name .sort sortKeys layout updates =
        .ok (some ⟨roleAttributeName .sort layout, some s⟩) := by
      rw [createUpdateActionForKey_assemble coll.name .sort sortKeys layout updates
        hMatch (fun h => absurd h (by simp)), hasm]
    have hsortapp : applySortPattern coll updates p ([], [], st) =
        .ok ([(st.names.map (roleAttributeName .sort layout)).1 ++ " = " ++
            (st.values.map (.str s)).1], [],
          ⟨(st.names.map (roleAttributeName .sort layout)).2,
           (st.values.map (.str s)).2⟩) := by
      unfold applySortPattern
      simp only [hsk]
      rw [if_pos hnz]
      simp only [hlay, hcreate, List.nil_append]
    rw [mapAccessPatterns_single coll p st updates hap]
    simp only [applyPartitionPattern_skip coll updates p layout ([], [], st) hlay hpart,
      hsortapp]

/-- Witness for C3: the same pattern yields one `remove` action when the
assembled value is undefined and one `set` action when it is present. -/
theorem sort_set_remove_decision_witness :
    mapAccessPatterns c3Collection ⟨createNameMapper, createValueMapper⟩ c3RemUpdates =
      .ok ([], [(createNameMapper.map "gs1sk").1],
        ⟨(createNameMapper.map "gs1sk").2, createValueMapper⟩) ∧
    mapAccessPatterns c3Collection ⟨createNameMapper, createValueMapper⟩ c3SetUpdates =
      .ok ([(createNameMapper.map "gs1sk").1 ++ " = " ++
          (createValueMapper.map (.str "users|v")).1], [],
        ⟨(createNameMapper.map "gs1sk").2,
         (createValueMapper.map (.str "users|v")).2⟩) := by
  constructor
  · exact (sort_set_remove_decision c3Collection ⟨"ix", [["p"]], some [["a", "b"]]⟩
      ⟨"ix", "gs1pk", some "gs1sk"⟩ c3RemUpdates [["a", "b"]] rfl rfl (by decide) rfl
      (by decide) (by decide)).1 rfl ⟨createNameMapper, createValueMapper⟩
  · exact (sort_set_remove_decision c3Collection ⟨"ix", [["p"]], some [["a", "b"]]⟩
      ⟨"ix", "gs1pk", some "gs1sk"⟩ c3SetUpdates [["a", "b"]] rfl rfl (by decide) rfl
      (by decide) (by decide)).2 "users|v" rfl ⟨createNameMapper, createValueMapper⟩

/-- A pattern whose sort key paths are all unmatched (or absent)
contributes nothing in the sort half of the loop. -/
theorem applySortPattern_skip (coll : Collection) (updates : Updates)
    (p : AccessPattern) (layout : SecondaryIndexLayout)
    (acc : List String × List String × MapperSessions)
    (hlay : findCollectionIndex coll p.indexName = .ok layout)
    (hsk : ∀ sk, p.sortKeys = some sk →
      (sk.map (findMatchingPath (extractUpdateKeyPaths updates))).all
        (fun m => m.isNone) = true) :
    applySortPattern coll updates p acc = .ok acc := by
  cases hp : p.sortKeys with
  | none =>
    unfold applySortPattern
    rw [hp]
  | some sk =>
    unfold applySortPattern
    simp only [hp]
    by_cases hlen : sk.length > 0
    · rw [if_pos hlen]
      simp only [hlay,
        createUpdateActionForKey_skip coll.name .sort sk layout updates (hsk sk hp)]
    · rw [if_neg hlen]

/-- A pattern with its partition role stripped contributes nothing in
the partition half of the loop. -/
theorem applyPartitionPattern_stripped (coll : Collection) (updates : Updates)
    (p : AccessPattern) (acc : List String × List String × MapperSessions) :
    applyPartitionPattern coll updates (stripPartitionRole p) acc = .ok acc := by
  unfold applyPartitionPattern
  rw [if_neg (by simp [stripPartitionRole])]

/-- A pattern with its sort role stripped contributes nothing in the
sort half of the loop. -/
theorem applySortPattern_stripped (coll : Collection) (updates : Updates)
    (p : AccessPattern) (acc : List String × List String × MapperSessions) :
    applySortPattern coll updates (stripSortRole p) acc = .ok acc := rfl

/-- The loop is pointwise insensitive to replacing one pattern by
another that is processed identically at every accumulator. -/
theorem mapAccessPatternsGo_frame (coll : Collection) (updates : Updates)
    (p p' : AccessPattern)
    (hp : ∀ acc, applyPartitionPattern coll updates p acc =
      applyPartitionPattern coll updates p' acc)
    (hs : ∀ acc, applySortPattern coll updates p acc =
      applySortPattern coll updates p' acc) :
    ∀ (pre post : List AccessPattern) (acc : List String × List String × MapperSessions),
      mapAccessPatternsGo coll updates (pre ++ p :: post) acc =
        mapAccessPatternsGo coll updates (pre ++ p' :: post) acc := by
  intro pre
  induction pre with
  | nil =>
    intro post acc
    simp only [List.nil_append]
    unfold mapAccessPatternsGo
    rw [hp acc]
    cases applyPartitionPattern coll updates p' acc with
    | error e => rfl
    | ok acc₁ =>
      show (match applySortPattern coll updates p acc₁ with
        | Except.error e => Except.error e
        | Except.ok acc₂ => mapAccessPatternsGo coll updates post acc₂) =
        (match applySortPattern coll updates p' acc₁ with
        | Except.error e => Except.error e
        | Except.ok acc₂ => mapAccessPatternsGo coll updates post acc₂)
      rw [hs acc₁]
  | cons q pre' ih =>
    intro post acc
    simp only [List.cons_append]
    unfold mapAccessPatternsGo
    cases applyPartitionPattern coll updates q acc with
    | error e => rfl
    | ok acc₁ =>
      show (match applySortPattern coll updates q acc₁ with
        | Except.error e => Except.error e
        | Except.ok acc₂ => mapAccessPatternsGo coll updates (pre' ++ p :: post) acc₂) =
        (match applySortPattern coll updates q acc₁ with
        | Except.error e => Except.error e
        | Except.ok acc₂ => mapAccessPatternsGo coll updates (pre' ++ p' :: post) acc₂)
      cases applySortPattern coll updates q acc₁ with
      | error e => rfl
      | ok acc₂ => exact ih post acc₂

/-- The loop only reads the collection's name and layout, so the
access-patterns field of the collection argument is irrelevant. -/
theorem mapAccessPatternsGo_collection_congr (n : String) (l : CollectionLayout)
    (a₁ a₂ : Option (List AccessPattern)) (updates : Updates) :
    ∀ (aps : List AccessPattern) (acc : List String × List String × MapperSessions),
      mapAccessPatternsGo ⟨n, l, a₁⟩ updates aps acc =
        mapAccessPatternsGo ⟨n, l, a₂⟩ updates aps acc := by
  intro aps
  induction aps with
  | nil =>
    intro acc
    rfl
  | cons q rest ih =>
    intro acc
    unfold mapAccessPatternsGo
    rw [show applyPartitionPattern ⟨n, l, a₁⟩ updates q acc =
      applyPartitionPattern ⟨n, l, a₂⟩ updates q acc from rfl]
    cases applyPartitionPattern ⟨n, l, a₂⟩ updates q acc with
    | error e => rfl
    | ok acc₁ =>
      show (match applySortPattern ⟨n, l, a₁⟩ updates q acc₁ with
        | Except.error e => Except.error e
        | Except.ok acc₂ => mapAccessPatternsGo ⟨n, l, a₁⟩ updates rest acc₂) =
        (match applySortPattern ⟨n, l, a₂⟩ updates q acc₁ with
        | Except.error e => Except.error e
        | Except.ok acc₂ => mapAccessPatternsGo ⟨n, l, a₂⟩ updates rest acc₂)
      rw [show applySortPattern ⟨n, l, a₁⟩ updates q acc₁ =
        applySortPattern ⟨n, l, a₂⟩ updates q acc₁ from rfl]
      cases applySortPattern ⟨n, l, a₂⟩ updates q acc₁ with
      | error e => rfl
      | ok acc₂ => exact ih acc₂

/-- `mapAccessPatterns` over a rewritten access-pattern list. -/
theorem mapAccessPatterns_withAP (coll : Collection) (aps : List AccessPattern)
    (st : MapperSessions) (updates : Updates) :
    mapAccessPatterns (withAccessPatterns coll aps) st updates =
      mapAccessPatternsGo coll updates aps ([], [], st) := by
  obtain ⟨n, l, a⟩ := coll
  show mapAccessPatternsGo ⟨n, l, some aps⟩ updates aps ([], [], st) = _
  exact mapAccessPatternsGo_collection_congr n l (some aps) a updates aps ([], [], st)

/-- C4 (confirmed).  Untouched-index frame property: for any access
pattern of the collection and each role, if none of the declared key
paths of that role match any update path (exactly, as ancestor, or as
descendant — all three are covered by `findMatchingPath`), the compiled
index actions are exactly those of the collection with that role removed
from the pattern: the role contributes no `set` and no `remove` action
and leaves the mapping sessions untouched, so the index attribute is
unchanged. -/
theorem untouched_index_frame (coll : Collection) (pre post : List AccessPattern)
    (p : AccessPattern) (layout : SecondaryIndexLayout) (st : MapperSessions)
    (updates : Updates)
    (hap : coll.accessPatterns = some (pre ++ p :: post))
    (hlay : findCollectionIndex coll p.indexName = .ok layout) :
    ((p.partitionKeys.map (findMatchingPath (extractUpdateKeyPaths updates))).all
        (fun m => m.isNone) = true →
      mapAccessPatterns coll st updates =
        mapAccessPatterns (withAccessPatterns coll (pre ++ stripPartitionRole p :: post))
          st updates) ∧
    ((∀ sk, p.sortKeys = some sk →
        (sk.map (findMatchingPath (extractUpdateKeyPaths updates))).all
          (fun m => m.isNone) = true) →
      mapAccessPatterns coll st updates =
        mapAccessPatterns (withAccessPatterns coll (pre ++ stripSortRole p :: post))
          st updates) := by
  have hmain : mapAccessPatterns coll st updates =
      mapAccessPatternsGo coll updates (pre ++ p :: post) ([], [], st) := by
    unfold mapAccessPatterns
    rw [hap]
  constructor
  · intro hpart
    rw [hmain, mapAccessPatterns_withAP coll (pre ++ stripPartitionRole p :: post)
      st updates]
    apply mapAccessPatternsGo_frame coll updates p (stripPartitionRole p)
    · intro acc
      rw [applyPartitionPattern_skip coll updates p layout acc hlay hpart,
        applyPartitionPattern_stripped coll updates p acc]
    · intro acc
      cases p
      rfl
  · intro hsortnone
    rw [hmain, mapAccessPatterns_withAP coll (pre ++ stripSortRole p :: post)
      st updates]
    apply mapAccessPatternsGo_frame coll updates p (stripSortRole p)
    · intro acc
      cases p
      rfl
    · intro acc
      rw [applySortPattern_skip coll updates p layout acc hlay hsortnone,
        applySortPattern_stripped coll updates p acc]

/-- Witness for C4: with the partition field untouched (only the sort
field updating), the compiled actions equal those of the
partition-stripped pattern; with nothing matching, they equal those of
the sort-stripped pattern. -/
theorem untouched_index_frame_witness :
    mapAccessPatterns c4Collection ⟨createNameMapper, createValueMapper⟩
        [("s", some (.str "v"))] =
      mapAccessPatterns (withAccessPatterns c4Collection
        [stripPartitionRole ⟨"ix", [["p"]], some [["s"]]⟩])
        ⟨createNameMapper, createValueMapper⟩ [("s", some (.str "v"))] ∧
    mapAccessPatterns c4Collection ⟨createNameMapper, createValueMapper⟩
        [("x", some (.str "v"))] =
      mapAccessPatterns (withAccessPatterns c4Collection
        [stripSortRole ⟨"ix", [["p"]], some [["s"]]⟩])
        ⟨createNameMapper, createValueMapper⟩ [("x", some (.str "v"))] := by
  constructor
  · exact (untouched_index_frame c4Collection [] [] ⟨"ix", [["p"]], some [["s"]]⟩
      ⟨"ix", "gs1pk", some "gs1sk"⟩ ⟨createNameMapper, createValueMapper⟩
      [("s", some (.str "v"))] rfl rfl).1 (by decide)
  · exact (untouched_index_frame c4Collection [] [] ⟨"ix", [["p"]], some [["s"]]⟩
      ⟨"ix", "gs1pk", some "gs1sk"⟩ ⟨createNameMapper, createValueMapper⟩
      [("x", some (.str "v"))] rfl rfl).2 (by decide)

/-- A primary loop that succeeds saw no `undefined` value. -/
theorem primarySetLoop_defined : ∀ (u : Updates) (st : MapperSessions)
    (res : List String × MapperSessions),
    primarySetLoop u st = .ok res → ∀ e ∈ u, e.2.isSome = true := by
  intro u
  induction u with
  | nil =>
    intro st res h e he
    simp at he
  | cons x rest ih =>
    intro st res h e he
    obtain ⟨path, v?⟩ := x
    cases v? with
    | none =>
      simp only [primarySetLoop] at h
      exact absurd h (by simp)
    | some v =>
      rcases List.mem_cons.mp he with he | he
      · rw [he]
        rfl
      · simp only [primarySetLoop] at h
        cases hrec : primarySetLoop rest ⟨(mapNameParts (splitPath path) st.names).2,
            (st.values.map v).2⟩ with
        | error e2 =>
          rw [hrec] at h
          exact absurd h (by simp)
        | ok res2 => exact ih _ res2 hrec e he

/-- C8 (confirmed).  Deterministic, order-preserving compilation: the
compiler is a pure function of the collection and the updates map, so
two runs on equal inputs produce the same actions, tables and expression
string by construction; this theorem states the order: on success, the
`set` actions are the per-update primary actions in update-path order —
one per update, the `i`-th binding placeholder `:value<i>` — followed by
the index actions produced by the access-pattern loop in declaration
order, the `remove` actions are exactly the loop's, the placeholder
tables are the final session tables, and the expression string is the
deterministic rendering of those action lists. -/
theorem compile_deterministic_ordered (coll : Collection) (updates : Updates)
    (r : CompiledUpdate) (h : compileUpdate coll updates = .ok r) :
    ∃ (prim idxSet idxDel : List String) (stMid stFin : MapperSessions),
      primarySetLoop updates ⟨createNameMapper, createValueMapper⟩ = .ok (prim, stMid) ∧
      mapAccessPatterns coll stMid updates = .ok (idxSet, idxDel, stFin) ∧
      r.setActions = prim ++ idxSet ∧
      r.deleteActions = idxDel ∧
      prim.length = updates.length ∧
      (∀ i (hi : i < prim.length), ∃ lhs : String,
        prim.get ⟨i, hi⟩ = lhs ++ " = " ++ (":value" ++ natStr i)) ∧
      r.expressionAttributeNames = stFin.names.get ∧
      r.expressionAttributeValues = stFin.values.get ∧
      r.updateExpression = renderUpdateExpression r.setActions r.deleteActions := by
  have hne : updates.length ≠ 0 := by
    intro h0
    unfold compileUpdate at h
    rw [if_pos h0] at h
    exact absurd h (by simp)
  cases hprim : primarySetLoop updates ⟨createNameMapper, createValueMapper⟩ with
  | error e =>
    rw [compileUpdate_eq coll updates hne, hprim] at h
    exact absurd h (by simp)
  | ok pr =>
    obtain ⟨prim, stMid⟩ := pr
    have hdef := primarySetLoop_defined updates ⟨createNameMapper, createValueMapper⟩
      (prim, stMid) hprim
    obtain ⟨acts₂, st₂, hloop₂, hlen₂, _, hform₂⟩ :=
      primarySetLoop_ok updates ⟨createNameMapper, createValueMapper⟩ hdef
    rw [hprim] at hloop₂
    have hpair := Except.ok.inj hloop₂
    have ha : prim = acts₂ := congrArg Prod.fst hpair
    rw [← ha] at hlen₂ hform₂
    have hc := (compileUpdate_ok_eq coll updates hne prim stMid hprim).symm.trans h
    cases hmap : mapAccessPatterns coll stMid updates with
    | error e =>
      rw [hmap] at hc
      exact absurd hc (by simp)
    | ok trip =>
      obtain ⟨idxSet, idxDel, stFin⟩ := trip
      rw [hmap] at hc
      have hr : CompiledUpdate.mk (prim ++ idxSet) idxDel stFin.names.get
          stFin.values.get (renderUpdateExpression (prim ++ idxSet) idxDel) = r :=
        Except.ok.inj hc
      refine ⟨prim, idxSet, idxDel, stMid, stFin, rfl, hmap, ?_, ?_, hlen₂, ?_, ?_, ?_, ?_⟩
      · rw [← hr]
      · rw [← hr]
      · intro i hi
        obtain ⟨lhs, hl⟩ := hform₂ i hi
        refine ⟨lhs, ?_⟩
        rw [hl]
        show lhs ++ " = " ++ (":value" ++ natStr (0 + i)) = _
        rw [Nat.zero_add]
      · rw [← hr]
      · rw [← hr]
      · rw [← hr]

/-- Witness for C8 at the spec's end-to-end scenario. -/
theorem compile_deterministic_ordered_witness :
    ∃ (r : CompiledUpdate) (prim idxSet idxDel : List String)
      (stMid stFin : MapperSessions),
      compileUpdate c8Collection c8Updates = .ok r ∧
      primarySetLoop c8Updates ⟨createNameMapper, createValueMapper⟩ = .ok (prim, stMid) ∧
      mapAccessPatterns c8Collection stMid c8Updates = .ok (idxSet, idxDel, stFin) ∧
      r.setActions = prim ++ idxSet ∧ r.deleteActions = idxDel ∧
      prim.length = c8Updates.length ∧
      r.updateExpression = renderUpdateExpression r.setActions r.deleteActions := by
  obtain ⟨prim, idxSet, idxDel, stMid, stFin, h1, h2, h3, h4, h5, h6, h7, h8, h9⟩ :=
    compile_deterministic_ordered c8Collection c8Updates _ rfl
  exact ⟨_, prim, idxSet, idxDel, stMid, stFin, rfl, h1, h2, h3, h4, h5, h9⟩

end Dynapack
